import Mathlib

/-!
Verification of the seat-lottery core of `venue-map-editor`
(`src/client/src/core/lottery.ts`), shallowly embedded in Lean 4.

Modelling conventions:
* JS `number` is modelled by `ℚ` (idealised exact arithmetic).
* `Math.sqrt` is modelled by an explicit parameter `sqrtFn : ℚ → ℚ`
  threaded through `calculateDistance`/`calculateSeatScore`/`assignSeats`;
  theorems that depend on square roots only use the fact that a square
  root of a non-negative number is non-negative, and concrete scenarios
  instantiate `sqrtFn` with `ratSqrt`, which is exact on perfect squares.
* The injectable random source `randomFn : () => number` is modelled as a
  stream `rand : ℕ → ℚ` together with an explicitly threaded draw index;
  draws are assumed to lie in `[0,1)` exactly where the source assumes it.
* JS `Set` objects are modelled as `List String` used only through
  membership (`contains`) and insertion (append).
* JS `Map` iteration order is insertion order; the grouping map of
  `buildAllChunks` is modelled as an insertion-ordered association list.
  The string key `` blockId_row `` of the source is injective in the pair
  (blockId ?? "default", row ?? 0) because the decimal rendering of a row
  number contains no underscore, so the key is modelled as that pair.
  (The source parses the key back by splitting on underscores; the parsed
  `chunk.blockId`/`chunk.row` fields are never consumed by any later
  computation, so this modelling is observationally equivalent.)
* `Array.prototype.sort` is stable (ES2019) and all comparators used by
  the source are consistent total preorders, which determines the sorted
  output uniquely; it is modelled by the stable Mathlib `List.insertionSort`
  with the corresponding non-strict relation.
-/

set_option linter.unusedVariables false

namespace VenueLottery

/-- Seat quality labels, from `@/types/venue` as consumed by `lottery.ts`. -/
inductive SeatQuality where
  | top
  | good
  | normal
  | back
  | far
deriving DecidableEq, Repr

/-- Model of the win/lose literal union used for `lastResult`. -/
inductive LastResult where
  | win
  | lose
deriving DecidableEq, Repr

/-- Model of `interface Seat` of lottery.ts. Optional `row`/`col`/`blockId` become `Option`. -/
structure Seat where
  id : String
  x : ℚ
  y : ℚ
  isPremium : Bool
  isDisabled : Bool
  row : Option ℤ
  col : Option ℤ
  blockId : Option String
deriving DecidableEq, Repr

/-- Model of `interface Application` of lottery.ts (display metadata fields omitted:
they are never read by the engine). `groupSize` is a party size, a natural
number per the data model. -/
structure Application where
  id : String
  groupSize : ℕ
  isInvitation : Bool
  isRelation : Bool
  pastScore : ℚ
  lastResult : Option LastResult
deriving DecidableEq, Repr

/-- Model of `interface SeatWithScore extends Seat`. -/
structure SeatWithScore extends Seat where
  score : ℚ
  distanceFromStage : ℚ
deriving DecidableEq, Repr

/-- Model of `interface Assignment`; `tier` is `1 | 2 | 3` in the source. -/
structure Assignment where
  applicationId : String
  seatIds : List String
  totalScore : ℚ
  tier : ℕ
  seatQuality : Option SeatQuality
deriving DecidableEq, Repr

/-- The `stats` record of `interface LotteryResult`. -/
structure LotteryStats where
  totalSeats : ℕ
  availableSeats : ℕ
  totalApplications : ℕ
  totalPeopleAssigned : ℕ
  averageScore : ℚ
  tier1Count : ℕ
  tier2Count : ℕ
  tier3Count : ℕ
  tier2OverflowCount : ℕ
deriving DecidableEq, Repr

/-- Model of `interface LotteryResult`. -/
structure LotteryResult where
  assignments : List Assignment
  unassigned : List String
  stats : LotteryStats
deriving DecidableEq, Repr

/-- Model of `interface SeatChunk` (internal: contiguous same-row seat run). -/
structure SeatChunk where
  seats : List SeatWithScore
  avgScore : ℚ
  blockId : String
  row : ℤ
  startCol : ℤ
deriving DecidableEq, Repr

/-- Model of `interface LotteryConfig` minus the injected functions, which are
modelled as explicit parameters of `assignSeats`. -/
structure LotteryConfig where
  stagePosition : ℚ × ℚ
  skillWeight : Option ℚ
deriving DecidableEq, Repr

/-- Model of the quality-or-lose union used in `ScoreUpdate.seatQuality`. -/
inductive QualityOrLose where
  | quality (q : SeatQuality)
  | lose
deriving DecidableEq, Repr

/-- Model of `interface ScoreUpdate`. -/
structure ScoreUpdate where
  applicationId : String
  currentScore : ℚ
  nextScore : ℚ
  change : ℚ
  seatQuality : QualityOrLose
  lastResult : LastResult
deriving DecidableEq, Repr

/-- Function `calculateDistance`: `Math.sqrt((x2-x1)**2 + (y2-y1)**2)`, with
`Math.sqrt` as the abstract parameter `sqrtFn`. -/
def calculateDistance (sqrtFn : ℚ → ℚ) (x1 y1 x2 y2 : ℚ) : ℚ :=
  sqrtFn ((x2 - x1) ^ 2 + (y2 - y1) ^ 2)

/-- Function `calculateSeatScore`: distance score in [0,100] plus a premium bonus of 1000. -/
def calculateSeatScore (sqrtFn : ℚ → ℚ) (seat : Seat) (stagePosition : ℚ × ℚ)
    (maxDistance : ℚ) : SeatWithScore :=
  let distance := calculateDistance sqrtFn seat.x seat.y stagePosition.1 stagePosition.2
  let distanceScore := max 0 (100 - distance / maxDistance * 100)
  let premiumBonus : ℚ := if seat.isPremium then 1000 else 0
  { toSeat := seat, score := distanceScore + premiumBonus, distanceFromStage := distance }

/-- Model of `Math.max(...)` over a list (used on a provably nonempty list in the source). -/
def listMax : List ℚ → ℚ
  | [] => 0
  | x :: xs => xs.foldl max x

/-- A concrete square-root function on ℚ used to instantiate `sqrtFn` in
witnesses and scenarios: exact on rationals whose numerator and denominator
are perfect squares, and always non-negative (like `Math.sqrt` on
non-negative reals). -/
def ratSqrt (q : ℚ) : ℚ :=
  if q.num ≤ 0 then 0 else (Nat.sqrt q.num.toNat : ℚ) / (Nat.sqrt q.den : ℚ)

/-- The grouping key of `buildAllChunks` (block id defaulting to "default",
row defaulting to 0, joined by an underscore), modelled as the pair it
encodes. -/
def groupKey (s : SeatWithScore) : String × ℤ :=
  (s.blockId.getD "default", s.row.getD 0)

/-- Default column: `seat.col ?? 0`. -/
def colOf (s : SeatWithScore) : ℤ :=
  s.col.getD 0

/-- One step of filling the insertion-ordered grouping map:
`grouped.get(key).push(seat)`, creating the entry at the end if absent. -/
def insertGrouped (acc : List ((String × ℤ) × List SeatWithScore)) (s : SeatWithScore) :
    List ((String × ℤ) × List SeatWithScore) :=
  match acc with
  | [] => [(groupKey s, [s])]
  | (k, g) :: rest =>
    if k = groupKey s then (k, g ++ [s]) :: rest
    else (k, g) :: insertGrouped rest s

/-- The insertion-ordered `Map<string, SeatWithScore[]>` of `buildAllChunks`. -/
def groupByKey (seats : List SeatWithScore) : List ((String × ℤ) × List SeatWithScore) :=
  seats.foldl insertGrouped []

/-- The chunk-splitting loop of `buildAllChunks`: cut the (col-sorted) row
before index `i` whenever `(rowSeats[i].col ?? 0) !== (rowSeats[i-1].col ?? 0) + 1`. -/
def splitChunks : List SeatWithScore → List (List SeatWithScore)
  | [] => []
  | s :: rest =>
    match splitChunks rest with
    | [] => [[s]]
    | [] :: chunks => [s] :: [] :: chunks
    | (t :: c) :: chunks =>
      if colOf t = colOf s + 1 then (s :: t :: c) :: chunks
      else [s] :: (t :: c) :: chunks

/-- Average score `chunkSeats.reduce((sum, s) => sum + s.score, 0) / chunkSeats.length`. -/
def chunkAvg (seats : List SeatWithScore) : ℚ :=
  (seats.map (fun s => s.score)).sum / (seats.length : ℚ)

/-- Packaging of one chunk record in `buildAllChunks`. -/
def mkChunk (bid : String) (row : ℤ) (seats : List SeatWithScore) : SeatChunk :=
  { seats := seats
    avgScore := chunkAvg seats
    blockId := bid
    row := row
    startCol := (seats.head?.map colOf).getD 0 }

/-- Function `buildAllChunks`: group by (blockId ?? "default", row ?? 0), sort each
group by `col ?? 0` ascending (stable), split into column-contiguous chunks. -/
def buildAllChunks (seats : List SeatWithScore) : List SeatChunk :=
  (groupByKey seats).flatMap (fun kg =>
    (splitChunks (List.insertionSort (fun a b => colOf a ≤ colOf b) kg.2)).map
      (mkChunk kg.1.1 kg.1.2))

/-- Function `getSubChunks`: all contiguous sub-runs (`slice(i, i + size)`) of the
requested size. -/
def getSubChunks (chunk : SeatChunk) (size : ℕ) : List SeatChunk :=
  if chunk.seats.length < size then []
  else
    (List.range (chunk.seats.length - size + 1)).map (fun i =>
      let subSeats := (chunk.seats.drop i).take size
      { seats := subSeats
        avgScore := chunkAvg subSeats
        blockId := chunk.blockId
        row := chunk.row
        startCol := (subSeats.head?.map colOf).getD 0 })

/-- Lookup `seatMap.get(id)`: JS `Map.set` overwrites, so the last matching seat wins. -/
def seatById (scoredSeats : List SeatWithScore) (sid : String) : Option SeatWithScore :=
  scoredSeats.reverse.find? (fun s => s.id == sid)

/-- Lookup `gridMap.get(blockId_row_col)` (again last-wins, only grid-complete seats). -/
def gridLookup (scoredSeats : List SeatWithScore) (b : String) (r c : ℤ) : Option String :=
  (scoredSeats.reverse.find? (fun s =>
    s.blockId == some b && s.row == some r && s.col == some c)).map (fun s => s.id)

/-- The 8-neighbourhood offsets, in the loop order of the source. -/
def neighborOffsets : List (ℤ × ℤ) :=
  [(-1, -1), (-1, 0), (-1, 1), (0, -1), (0, 1), (1, -1), (1, 0), (1, 1)]

/-- The `soloAdjacentIds` set: unassigned grid neighbours of already placed
solo seats (JS truthiness of `nId` skips an empty-string id). -/
def soloAdjacentIds (scoredSeats : List SeatWithScore) (assignedSeatIds : List String)
    (solos : List String) : List String :=
  solos.flatMap (fun soloId =>
    match seatById scoredSeats soloId with
    | none => []
    | some seat =>
      match seat.blockId, seat.row, seat.col with
      | some b, some r, some c =>
        neighborOffsets.filterMap (fun d =>
          match gridLookup scoredSeats b (r + d.1) (c + d.2) with
          | some nId =>
            if nId == "" || assignedSeatIds.contains nId then none else some nId
          | none => none)
      | _, _, _ => [])

/-- The solo-adjacency bonus block of `findAndAllocateSeats`: when placing a
party of 1 with previously placed solo seats, add 20% of the maximum candidate
average (floored at 1 by `Math.max(..., 1)`) to candidates starting on a seat
adjacent to a placed solo seat. Only `avgScore` is modified. -/
def applySoloBonus (groupSize : ℕ) (scoredSeats : List SeatWithScore)
    (assignedSeatIds : List String) (soloSeatIds : Option (List String))
    (candidateChunks : List SeatChunk) : List SeatChunk :=
  match soloSeatIds with
  | none => candidateChunks
  | some solos =>
    if groupSize = 1 ∧ 0 < solos.length then
      let adj := soloAdjacentIds scoredSeats assignedSeatIds solos
      if 0 < adj.length then
        let maxScore := (candidateChunks.map (fun c => c.avgScore)).foldl max 1
        let bonus := maxScore * (2 / 10)
        candidateChunks.map (fun c =>
          match c.seats.head? with
          | some s =>
            if s.id ≠ "" ∧ adj.contains s.id then
              { c with avgScore := c.avgScore + bonus }
            else c
          | none => c)
      else candidateChunks
    else candidateChunks

/-- All size-`groupSize` sub-runs of all maximal runs of the available seats. -/
def candidatesFor (groupSize : ℕ) (available : List SeatWithScore) : List SeatChunk :=
  (buildAllChunks available).flatMap (fun c => getSubChunks c groupSize)

/-- Function `findAndAllocateSeats`: choose the best contiguous run of the requested
size among unassigned seats (stable descending sort by average score, pick the
first). -/
def findAndAllocateSeats (groupSize : ℕ) (scoredSeats : List SeatWithScore)
    (assignedSeatIds : List String) (soloSeatIds : Option (List String)) :
    Option (List SeatWithScore) :=
  let available := scoredSeats.filter (fun s => !(assignedSeatIds.contains s.id))
  if available.length < groupSize then none
  else
    let candidateChunks := candidatesFor groupSize available
    if candidateChunks.length = 0 then none
    else
      ((List.insertionSort (fun a b => b.avgScore ≤ a.avgScore)
        (applySoloBonus groupSize scoredSeats assignedSeatIds soloSeatIds
          candidateChunks)).head?).map (fun best => best.seats)

/-- The selection loop of `hybridSelection`: draw; below `skillWeight` take the
current top scorer, otherwise take a uniformly random remaining candidate
(`Math.floor(randomFn() * remaining.length)`); remove it and repeat. The draw
index is threaded explicitly. -/
def hybridLoop (rand : ℕ → ℚ) (skillWeight : ℚ) :
    List Application → ℕ → List Application × ℕ
  | [], idx => ([], idx)
  | a :: rest, idx =>
    if rand idx < skillWeight then
      let res := hybridLoop rand skillWeight ((a :: rest).erase a) (idx + 1)
      (a :: res.1, res.2)
    else
      let i := (Int.floor (rand (idx + 1) * (((a :: rest).length : ℕ) : ℚ))).toNat
      let chosen := ((a :: rest)[i]?).getD a
      let res := hybridLoop rand skillWeight ((a :: rest).erase chosen) (idx + 2)
      (chosen :: res.1, res.2)
termination_by l idx => l.length
decreasing_by
  · have ha : a ∈ a :: rest := List.mem_cons_self a rest
    simp [List.length_erase_of_mem ha]
  · have hc : ∀ (l : List Application) (i : ℕ) (d : Application), d ∈ l →
        (l.erase ((l[i]?).getD d)).length < l.length := by
      intro l i d hd
      have hm : (l[i]?).getD d ∈ l := by
        cases h : l[i]? with
        | none => simpa using hd
        | some b => simpa using List.getElem?_mem h
      have h1 := List.length_erase_of_mem hm
      have h2 : 0 < l.length := List.length_pos.mpr (List.ne_nil_of_mem hd)
      omega
    simpa using hc (a :: rest) _ a (List.mem_cons_self a rest)

/-- Function `hybridSelection`: sort candidates by descending `pastScore` (stable),
then run the skill/luck loop until the pool is exhausted. -/
def hybridSelection (rand : ℕ → ℚ) (skillWeight : ℚ) (candidates : List Application)
    (idx : ℕ) : List Application × ℕ :=
  hybridLoop rand skillWeight
    (List.insertionSort (fun a b => b.pastScore ≤ a.pastScore) candidates) idx

/-- One Fisher–Yates swap `[l[i], l[j]] = [l[j], l[i]]` (identity when an
index is out of range, which never happens for draws in `[0,1)`). -/
def shuffleStep (l : List Application) (i j : ℕ) : List Application :=
  match l[i]?, l[j]? with
  | some a, some b => (l.set i b).set j a
  | _, _ => l

/-- The Fisher–Yates loop body: at counter `i ≥ 1`, swap position `i` with
`Math.floor(randomFn() * (i + 1))` and continue downwards. -/
def fyAux (rand : ℕ → ℚ) : ℕ → List Application → ℕ → List Application × ℕ
  | 0, l, idx => (l, idx)
  | i + 1, l, idx =>
    let j := (Int.floor (rand idx * (((i + 2 : ℕ) : ℕ) : ℚ))).toNat
    fyAux rand i (shuffleStep l (i + 1) j) (idx + 1)

/-- The Tier-1 Fisher–Yates shuffle of `assignSeats` (loop from
`length - 1` down to `1`). -/
def fisherYates (rand : ℕ → ℚ) (l : List Application) (idx : ℕ) :
    List Application × ℕ :=
  fyAux rand (l.length - 1) l idx

/-- Tier-1 predicate: `app.isInvitation || app.isRelation`. -/
def isTier1 (a : Application) : Bool :=
  a.isInvitation || a.isRelation

/-- Tier-2 predicate: not Tier 1 and a lose `lastResult`. -/
def isTier2 (a : Application) : Bool :=
  !isTier1 a && a.lastResult == some LastResult.lose

/-- Tier-3 predicate: everyone else. -/
def isTier3 (a : Application) : Bool :=
  !isTier1 a && !(a.lastResult == some LastResult.lose)

/-- The Tier-1 list produced by the classification loop of `assignSeats`. -/
def tier1Apps (apps : List Application) : List Application :=
  apps.filter isTier1

/-- The Tier-2 list produced by the classification loop of `assignSeats`. -/
def tier2Apps (apps : List Application) : List Application :=
  apps.filter isTier2

/-- The Tier-3 list produced by the classification loop of `assignSeats`. -/
def tier3Apps (apps : List Application) : List Application :=
  apps.filter isTier3

/-- The full allocation-attempt order of one `assignSeats` run: shuffled
Tier 1, then Tier 2 sorted by descending past score, then the hybrid-selected
Tier 3, each applicant tagged with its tier. The random draw index is
consumed by the shuffle first and by hybrid selection afterwards, exactly as
in the source (the allocation loops in between draw no randomness). -/
def lotteryAttempts (rand : ℕ → ℚ) (skillWeight : ℚ) (applications : List Application) :
    List (Application × ℕ) :=
  let t1 := fisherYates rand (tier1Apps applications) 0
  let t2 := List.insertionSort (fun a b => b.pastScore ≤ a.pastScore)
    (tier2Apps applications)
  let t3 := hybridSelection rand skillWeight (tier3Apps applications) t1.2
  t1.1.map (fun a => (a, 1)) ++ t2.map (fun a => (a, 2)) ++ t3.1.map (fun a => (a, 3))

/-- The mutable allocation state of `assignSeats` (arrays and `Set`s). -/
structure AllocState where
  assignments : List Assignment
  assignedSeatIds : List String
  soloSeatIds : List String
  unassigned : List String
  tier2OverflowCount : ℕ
deriving DecidableEq, Repr

/-- The initial allocation state. -/
def initAllocState : AllocState :=
  { assignments := []
    assignedSeatIds := []
    soloSeatIds := []
    unassigned := []
    tier2OverflowCount := 0 }

/-- The `allocateApp` closure of `assignSeats`, together with the
per-tier failure bookkeeping of the three allocation loops (push to
`unassigned`; additionally count Tier-2 overflow). -/
def allocateApp (scoredSeats : List SeatWithScore) (st : AllocState)
    (app : Application) (tier : ℕ) : AllocState :=
  match findAndAllocateSeats app.groupSize scoredSeats st.assignedSeatIds
      (if app.groupSize = 1 then some st.soloSeatIds else none) with
  | some allocated =>
    { st with
      assignedSeatIds := st.assignedSeatIds ++ allocated.map (fun s => s.id)
      soloSeatIds :=
        if app.groupSize = 1 then st.soloSeatIds ++ allocated.map (fun s => s.id)
        else st.soloSeatIds
      assignments := st.assignments ++
        [{ applicationId := app.id
           seatIds := allocated.map (fun s => s.id)
           totalScore := (allocated.map (fun s => s.score)).sum / (allocated.length : ℚ)
           tier := tier
           seatQuality := none }] }
  | none =>
    { st with
      unassigned := st.unassigned ++ [app.id]
      tier2OverflowCount := st.tier2OverflowCount + (if tier = 2 then 1 else 0) }

/-- The three allocation loops of `assignSeats`, folded over the attempt order. -/
def runAllocation (scoredSeats : List SeatWithScore)
    (attempts : List (Application × ℕ)) : AllocState :=
  attempts.foldl (fun st p => allocateApp scoredSeats st p.1 p.2) initAllocState

/-- The percentile bucket of `assignSeatQuality` at sorted position `i` of
`total`. -/
def qualityLabel (i total : ℕ) : SeatQuality :=
  let percentile : ℚ := (i : ℚ) / (total : ℚ) * 100
  if percentile < 15 then SeatQuality.top
  else if percentile < 40 then SeatQuality.good
  else if percentile < 60 then SeatQuality.normal
  else if percentile < 85 then SeatQuality.back
  else SeatQuality.far

/-- Function `assignSeatQuality`: sort the non-Tier-1 assignments by descending total
score and stamp each with its percentile label (the source mutates the shared
records in place, so the assignment list keeps its order). -/
def assignSeatQuality (assignments : List Assignment) : List Assignment :=
  let nonVip := assignments.filter (fun a => a.tier != 1)
  if nonVip.length = 0 then assignments
  else
    let sorted := List.insertionSort (fun a b => b.totalScore ≤ a.totalScore) nonVip
    assignments.map (fun a =>
      if a.tier = 1 then a
      else { a with seatQuality := some (qualityLabel (sorted.indexOf a) sorted.length) })

/-- The degenerate-input result of `assignSeats` (no available seat or no
applicant). -/
def degenerateResult (seats : List Seat) (applications : List Application) :
    LotteryResult :=
  { assignments := []
    unassigned := applications.map (fun a => a.id)
    stats :=
      { totalSeats := seats.length
        availableSeats := 0
        totalApplications := applications.length
        totalPeopleAssigned := 0
        averageScore := 0
        tier1Count := 0
        tier2Count := 0
        tier3Count := 0
        tier2OverflowCount := 0 } }

/-- Step 2 of `assignSeats`: `Math.max(...distances) || 1`. -/
def maxDistanceFor (sqrtFn : ℚ → ℚ) (availableSeats : List Seat)
    (stagePosition : ℚ × ℚ) : ℚ :=
  let m := listMax (availableSeats.map (fun s =>
    calculateDistance sqrtFn s.x s.y stagePosition.1 stagePosition.2))
  if m = 0 then 1 else m

/-- Step 3 of `assignSeats`: score every available seat. -/
def scoredSeatsFor (sqrtFn : ℚ → ℚ) (availableSeats : List Seat)
    (stagePosition : ℚ × ℚ) : List SeatWithScore :=
  availableSeats.map (fun s =>
    calculateSeatScore sqrtFn s stagePosition
      (maxDistanceFor sqrtFn availableSeats stagePosition))

/-- Function `assignSeats`, the main lottery entry point. -/
def assignSeats (sqrtFn : ℚ → ℚ) (rand : ℕ → ℚ) (seats : List Seat)
    (applications : List Application) (config : LotteryConfig) : LotteryResult :=
  let skillWeight := config.skillWeight.getD (7 / 10)
  let availableSeats := seats.filter (fun s => !s.isDisabled)
  if availableSeats.length = 0 ∨ applications.length = 0 then
    degenerateResult seats applications
  else
    let scoredSeats := scoredSeatsFor sqrtFn availableSeats config.stagePosition
    let st := runAllocation scoredSeats (lotteryAttempts rand skillWeight applications)
    let finalAssignments := assignSeatQuality st.assignments
    { assignments := finalAssignments
      unassigned := st.unassigned
      stats :=
        { totalSeats := seats.length
          availableSeats := availableSeats.length
          totalApplications := applications.length
          totalPeopleAssigned := (finalAssignments.map (fun a => a.seatIds.length)).sum
          averageScore :=
            if 0 < finalAssignments.length then
              (finalAssignments.map (fun a => a.totalScore)).sum /
                (finalAssignments.length : ℚ)
            else 0
          tier1Count := (finalAssignments.filter (fun a => a.tier == 1)).length
          tier2Count := (finalAssignments.filter (fun a => a.tier == 2)).length
          tier3Count := (finalAssignments.filter (fun a => a.tier == 3)).length
          tier2OverflowCount := st.tier2OverflowCount } }

/-- The `qualityChange` lookup table of `calculateScoreUpdates`. -/
def qualityChange : SeatQuality → ℚ
  | SeatQuality.top => -4
  | SeatQuality.good => -(3 / 2)
  | SeatQuality.normal => 0
  | SeatQuality.back => 3 / 2
  | SeatQuality.far => 4

/-- Function `calculateScoreUpdates`: one update per assignment / unassigned id whose
application is found (first match by id); entries with no matching
application are skipped. -/
def calculateScoreUpdates (assignments : List Assignment) (unassigned : List String)
    (applications : List Application) : List ScoreUpdate :=
  let winUpdates := assignments.filterMap (fun a =>
    (applications.find? (fun ap => ap.id == a.applicationId)).map (fun app =>
      if app.isInvitation || app.isRelation then
        { applicationId := a.applicationId
          currentScore := app.pastScore
          nextScore := app.pastScore
          change := 0
          seatQuality := QualityOrLose.quality (a.seatQuality.getD SeatQuality.normal)
          lastResult := LastResult.win }
      else
        let quality := a.seatQuality.getD SeatQuality.normal
        let nextRaw := app.pastScore + qualityChange quality
        let nextScore := max 1 (min 10 nextRaw)
        { applicationId := a.applicationId
          currentScore := app.pastScore
          nextScore := nextScore
          change := nextScore - app.pastScore
          seatQuality := QualityOrLose.quality quality
          lastResult := LastResult.win }))
  let loseUpdates := unassigned.filterMap (fun uid =>
    (applications.find? (fun ap => ap.id == uid)).map (fun app =>
      if app.isInvitation || app.isRelation then
        { applicationId := uid
          currentScore := app.pastScore
          nextScore := app.pastScore
          change := 0
          seatQuality := QualityOrLose.lose
          lastResult := LastResult.lose }
      else
        let nextRaw := app.pastScore + 6
        let nextScore := max 1 (min 10 nextRaw)
        { applicationId := uid
          currentScore := app.pastScore
          nextScore := nextScore
          change := nextScore - app.pastScore
          seatQuality := QualityOrLose.lose
          lastResult := LastResult.lose }))
  winUpdates ++ loseUpdates

/-- Modelled from the spec: `clamp(x, 1.0, 10.0)` as written in §4.7 of the
specification, for comparison against the `Math.max`/`Math.min` of the source. -/
def specClamp (x : ℚ) : ℚ :=
  max 1 (min 10 x)

/-- Modelled from the spec: the quality-delta lookup of §4.7
(top −4.0, good −1.5, normal 0, back +1.5, far +4.0). -/
def specQualityDelta : SeatQuality → ℚ
  | SeatQuality.top => -4
  | SeatQuality.good => -(3 / 2)
  | SeatQuality.normal => 0
  | SeatQuality.back => 3 / 2
  | SeatQuality.far => 4

/-- Fold of `allocateApp` over a list of attempts, from an arbitrary state. -/
def allocFold (scoredSeats : List SeatWithScore) (st : AllocState)
    (attempts : List (Application × ℕ)) : AllocState :=
  attempts.foldl (fun s p => allocateApp scoredSeats s p.1 p.2) st

/-- The allocation invariant: every granted seat id is registered in
`assignedSeatIds`, and distinct assignments hold disjoint seat-id lists. -/
def AllocInv (st : AllocState) : Prop :=
  (∀ a ∈ st.assignments, ∀ sid ∈ a.seatIds, sid ∈ st.assignedSeatIds) ∧
    st.assignments.Pairwise (fun a b => ∀ sid ∈ a.seatIds, sid ∉ b.seatIds)

/-! ## Concrete inputs for scenarios, witnesses and counterexamples -/

/-- A deterministic random stream (all draws 0, within [0,1)). -/
def demoRand : ℕ → ℚ :=
  fun _ => 0

/-- Scenario B seat: a single enabled seat at the stage position. -/
def demoSeat : Seat :=
  { id := "s1", x := 0, y := 0, isPremium := false, isDisabled := false,
    row := none, col := none, blockId := none }

/-- Scenario B applicant: invitation holder, party of 1. -/
def demoInv : Application :=
  { id := "a1", groupSize := 1, isInvitation := true, isRelation := false,
    pastScore := 5, lastResult := none }

/-- Scenario B applicant: non-priority rescue case (lost last round), party of 1. -/
def demoRescue : Application :=
  { id := "a2", groupSize := 1, isInvitation := false, isRelation := false,
    pastScore := 5, lastResult := some LastResult.lose }

/-- Scenario B configuration: stage at the origin, default skill weight. -/
def demoCfg : LotteryConfig :=
  { stagePosition := (0, 0), skillWeight := none }

/-- A scored seat in block "B", row 0, at the given column with the given score. -/
def c6Seat (sid : String) (c : ℤ) (score : ℚ) : SeatWithScore :=
  { id := sid, x := 0, y := 0, isPremium := false, isDisabled := false,
    row := some 0, col := some c, blockId := some "B", score := score,
    distanceFromStage := 0 }

/-- Scenario A: 5 contiguous seats in one row with scores 10..50. -/
def c6Seats : List SeatWithScore :=
  [c6Seat "a" 0 10, c6Seat "b" 1 20, c6Seat "c" 2 30, c6Seat "d" 3 40, c6Seat "e" 4 50]

/-- A seat of block "A" at (row 0, col 1). -/
def cexSeatA : SeatWithScore :=
  { id := "a", x := 0, y := 0, isPremium := false, isDisabled := false,
    row := some 0, col := some 1, blockId := some "A", score := 0,
    distanceFromStage := 0 }

/-- A coordinate-less seat of block "A" (row and col undefined). -/
def cexSeatB : SeatWithScore :=
  { id := "b", x := 0, y := 0, isPremium := false, isDisabled := false,
    row := none, col := none, blockId := some "A", score := 0,
    distanceFromStage := 0 }

/-- A priority applicant whose past score lies outside [1,10]. -/
def cexPriorityApp : Application :=
  { id := "u1", groupSize := 1, isInvitation := true, isRelation := false,
    pastScore := 0, lastResult := none }

/-- A non-priority applicant with an in-range score, for witnesses. -/
def c8App : Application :=
  { id := "u2", groupSize := 1, isInvitation := false, isRelation := false,
    pastScore := 5, lastResult := none }

/-- A non-priority applicant with an out-of-domain past score, to exercise
the unconditional clamping of non-priority updates. -/
def cexLowApp : Application :=
  { id := "u3", groupSize := 1, isInvitation := false, isRelation := false,
    pastScore := -100, lastResult := none }

/-- A seated assignment labelled `top`, for the score-update witnesses. -/
def c4Assignment : Assignment :=
  { applicationId := "w1", seatIds := ["s1"], totalScore := 50, tier := 3,
    seatQuality := some SeatQuality.top }

/-- The applicant of `c4Assignment`. -/
def c4App : Application :=
  { id := "w1", groupSize := 1, isInvitation := false, isRelation := false,
    pastScore := 9, lastResult := none }

/-- A premium seat for the premium-dominance witness. -/
def premSeat : Seat :=
  { id := "p", x := 0, y := 0, isPremium := true, isDisabled := false,
    row := none, col := none, blockId := none }

/-- A non-premium seat for the premium-dominance witness. -/
def plainSeat : Seat :=
  { id := "q", x := 1, y := 1, isPremium := false, isDisabled := false,
    row := none, col := none, blockId := none }

/-! ## Structural lemmas about run building -/

theorem splitChunks_flatten (l : List SeatWithScore) : (splitChunks l).flatten = l := by
  induction l with
  | nil => rfl
  | cons s rest ih =>
    rw [splitChunks]
    rcases h : splitChunks rest with _ | ⟨c, chunks⟩
    · rw [h] at ih
      simpa using ih.symm
    · rcases c with _ | ⟨t, c⟩
      · rw [h] at ih
        simpa using ih
      · rw [h] at ih
        by_cases hc : colOf t = colOf s + 1
        · simp only [if_pos hc, List.flatten_cons] at ih ⊢
          simpa using ih
        · simp only [if_neg hc, List.flatten_cons] at ih ⊢
          simpa using ih

theorem mem_of_mem_splitChunks {l : List SeatWithScore} {c : List SeatWithScore}
    (hc : c ∈ splitChunks l) {s : SeatWithScore} (hs : s ∈ c) : s ∈ l := by
  have h := splitChunks_flatten l
  rw [← h]
  exact List.mem_flatten.mpr ⟨c, hc, hs⟩

theorem chain_of_mem_splitChunks {l : List SeatWithScore} {c : List SeatWithScore}
    (hc : c ∈ splitChunks l) :
    List.Chain' (fun a b => colOf b = colOf a + 1) c := by
  induction l generalizing c with
  | nil => simp [splitChunks] at hc
  | cons s rest ih =>
    rw [splitChunks] at hc
    rcases h : splitChunks rest with _ | ⟨c0, chunks⟩
    · rw [h] at hc
      simp at hc
      simp [hc]
    · rcases c0 with _ | ⟨t, c0⟩
      · rw [h] at hc
        simp at hc
        rcases hc with hc | hc | hc
        · simp [hc]
        · simp [hc]
        · exact ih (h ▸ List.mem_cons_of_mem _ hc)
      · rw [h] at hc
        dsimp only at hc
        by_cases hcol : colOf t = colOf s + 1
        · rw [if_pos hcol] at hc
          rcases List.mem_cons.mp hc with hc | hc
          · subst hc
            have := ih (h ▸ List.mem_cons_self _ _)
            exact List.Chain'.cons hcol this
          · exact ih (h ▸ List.mem_cons_of_mem _ hc)
        · rw [if_neg hcol] at hc
          rcases List.mem_cons.mp hc with hc | hc
          · simp [hc]
          · exact ih (h ▸ hc)

theorem mem_insertGrouped_cases {acc : List ((String × ℤ) × List SeatWithScore)}
    {x : SeatWithScore} {e : (String × ℤ) × List SeatWithScore}
    (he : e ∈ insertGrouped acc x) {s : SeatWithScore} (hs : s ∈ e.2) :
    s = x ∨ ∃ e2 ∈ acc, s ∈ e2.2 := by
  induction acc generalizing e with
  | nil =>
    simp [insertGrouped] at he
    subst he
    simp at hs
    exact Or.inl hs
  | cons hd rest ih =>
    rcases hd with ⟨k, g⟩
    rw [insertGrouped] at he
    by_cases hk : k = groupKey x
    · rw [if_pos hk] at he
      rcases List.mem_cons.mp he with he | he
      · subst he
        simp at hs
        rcases hs with hs | hs
        · exact Or.inr ⟨(k, g), List.mem_cons_self _ _, hs⟩
        · exact Or.inl hs
      · exact Or.inr ⟨e, List.mem_cons_of_mem _ he, hs⟩
    · rw [if_neg hk] at he
      rcases List.mem_cons.mp he with he | he
      · subst he
        exact Or.inr ⟨(k, g), List.mem_cons_self _ _, hs⟩
      · rcases ih he hs with h | ⟨e2, he2, hs2⟩
        · exact Or.inl h
        · exact Or.inr ⟨e2, List.mem_cons_of_mem _ he2, hs2⟩

theorem mem_groupByKey {seats : List SeatWithScore}
    {e : (String × ℤ) × List SeatWithScore} (he : e ∈ groupByKey seats)
    {s : SeatWithScore} (hs : s ∈ e.2) : s ∈ seats := by
  suffices h : ∀ (l : List SeatWithScore) (acc : List ((String × ℤ) × List SeatWithScore))
      (e : (String × ℤ) × List SeatWithScore), e ∈ l.foldl insertGrouped acc →
      ∀ s ∈ e.2, s ∈ l ∨ ∃ e2 ∈ acc, s ∈ e2.2 by
    rcases h seats [] e he s hs with h1 | ⟨e2, he2, _⟩
    · exact h1
    · simp at he2
  intro l
  induction l with
  | nil =>
    intro acc e he s hs
    exact Or.inr ⟨e, he, hs⟩
  | cons x rest ih =>
    intro acc e he s hs
    rcases ih (insertGrouped acc x) e he s hs with h1 | ⟨e2, he2, hs2⟩
    · exact Or.inl (List.mem_cons_of_mem _ h1)
    · rcases mem_insertGrouped_cases he2 hs2 with h | ⟨e3, he3, hs3⟩
      · exact Or.inl (h ▸ List.mem_cons_self _ _)
      · exact Or.inr ⟨e3, he3, hs3⟩

theorem mem_of_mem_buildAllChunks {seats : List SeatWithScore} {c : SeatChunk}
    (hc : c ∈ buildAllChunks seats) {s : SeatWithScore} (hs : s ∈ c.seats) :
    s ∈ seats := by
  rw [buildAllChunks] at hc
  rcases List.mem_flatMap.mp hc with ⟨kg, hkg, hmem⟩
  rcases List.mem_map.mp hmem with ⟨cs, hcs, hc2⟩
  have hseats : c.seats = cs := by rw [← hc2]; rfl
  rw [hseats] at hs
  have h2 := mem_of_mem_splitChunks hcs hs
  have h3 : s ∈ kg.2 := (List.mem_insertionSort _).mp h2
  exact mem_groupByKey hkg h3

theorem chain_of_mem_buildAllChunks {seats : List SeatWithScore} {c : SeatChunk}
    (hc : c ∈ buildAllChunks seats) :
    List.Chain' (fun a b => colOf b = colOf a + 1) c.seats := by
  rw [buildAllChunks] at hc
  rcases List.mem_flatMap.mp hc with ⟨kg, hkg, hmem⟩
  rcases List.mem_map.mp hmem with ⟨cs, hcs, hc2⟩
  have hseats : c.seats = cs := by rw [← hc2]; rfl
  rw [hseats]
  exact chain_of_mem_splitChunks hcs

theorem mem_getSubChunks {c : SeatChunk} {size : ℕ} {c2 : SeatChunk}
    (h : c2 ∈ getSubChunks c size) :
    c2.seats.length = size ∧ ∀ s ∈ c2.seats, s ∈ c.seats := by
  rw [getSubChunks] at h
  by_cases hlt : c.seats.length < size
  · rw [if_pos hlt] at h
    simp at h
  · rw [if_neg hlt] at h
    rcases List.mem_map.mp h with ⟨i, hi, hc2⟩
    have hi2 : i ∈ List.range (c.seats.length - size + 1) := hi
    rw [List.mem_range] at hi2
    have hseats : c2.seats = (c.seats.drop i).take size := by rw [← hc2]
    constructor
    · rw [hseats, List.length_take, List.length_drop]
      omega
    · intro s hs
      rw [hseats] at hs
      exact List.mem_of_mem_drop (List.mem_of_mem_take hs)

theorem mem_candidatesFor {groupSize : ℕ} {available : List SeatWithScore}
    {c : SeatChunk} (hc : c ∈ candidatesFor groupSize available) :
    c.seats.length = groupSize ∧ ∀ s ∈ c.seats, s ∈ available := by
  rw [candidatesFor] at hc
  rcases List.mem_flatMap.mp hc with ⟨c0, hc0, hsub⟩
  rcases mem_getSubChunks hsub with ⟨hlen, hmem⟩
  exact ⟨hlen, fun s hs => mem_of_mem_buildAllChunks hc0 (hmem s hs)⟩

theorem mem_applySoloBonus {groupSize : ℕ} {scoredSeats : List SeatWithScore}
    {assignedSeatIds : List String} {soloSeatIds : Option (List String)}
    {cands : List SeatChunk} {c : SeatChunk}
    (hc : c ∈ applySoloBonus groupSize scoredSeats assignedSeatIds soloSeatIds cands) :
    ∃ c0 ∈ cands, c.seats = c0.seats := by
  rcases soloSeatIds with _ | solos
  · exact ⟨c, by simpa [applySoloBonus] using hc, rfl⟩
  · simp only [applySoloBonus] at hc
    by_cases h1 : groupSize = 1 ∧ 0 < solos.length
    · rw [if_pos h1] at hc
      by_cases h2 : 0 < (soloAdjacentIds scoredSeats assignedSeatIds solos).length
      · rw [if_pos h2] at hc
        rcases List.mem_map.mp hc with ⟨c0, hc0, hmap⟩
        refine ⟨c0, hc0, ?_⟩
        rw [← hmap]
        rcases hhead : c0.seats.head? with _ | s
        · rfl
        · by_cases h3 : s.id ≠ "" ∧ (soloAdjacentIds scoredSeats assignedSeatIds solos).contains s.id
          · simp only [hhead, if_pos h3]
          · simp only [hhead, if_neg h3]
      · rw [if_neg h2] at hc
        exact ⟨c, hc, rfl⟩
    · rw [if_neg h1] at hc
      exact ⟨c, hc, rfl⟩

theorem applySoloBonus_length (groupSize : ℕ) (scoredSeats : List SeatWithScore)
    (assignedSeatIds : List String) (soloSeatIds : Option (List String))
    (cands : List SeatChunk) :
    (applySoloBonus groupSize scoredSeats assignedSeatIds soloSeatIds cands).length
      = cands.length := by
  rcases soloSeatIds with _ | solos
  · rfl
  · simp only [applySoloBonus]
    by_cases h1 : groupSize = 1 ∧ 0 < solos.length
    · rw [if_pos h1]
      by_cases h2 : 0 < (soloAdjacentIds scoredSeats assignedSeatIds solos).length
      · rw [if_pos h2]
        exact List.length_map _ _
      · rw [if_neg h2]
    · rw [if_neg h1]

/-- Whenever `findAndAllocateSeats` succeeds, the allocated run has exactly the
requested size and consists of scored seats not yet assigned. -/
theorem findAndAllocateSeats_spec {groupSize : ℕ} {scoredSeats : List SeatWithScore}
    {assignedSeatIds : List String} {soloSeatIds : Option (List String)}
    {r : List SeatWithScore}
    (h : findAndAllocateSeats groupSize scoredSeats assignedSeatIds soloSeatIds = some r) :
    r.length = groupSize ∧
      ∀ s ∈ r, s ∈ scoredSeats ∧ assignedSeatIds.contains s.id = false := by
  rw [findAndAllocateSeats] at h
  by_cases h1 : (scoredSeats.filter (fun s => !(assignedSeatIds.contains s.id))).length
      < groupSize
  · rw [if_pos h1] at h
    exact absurd h (by simp)
  · rw [if_neg h1] at h
    by_cases h2 : (candidatesFor groupSize
        (scoredSeats.filter (fun s => !(assignedSeatIds.contains s.id)))).length = 0
    · rw [if_pos h2] at h
      exact absurd h (by simp)
    · rw [if_neg h2] at h
      rcases hsort : List.insertionSort (fun a b => b.avgScore ≤ a.avgScore)
          (applySoloBonus groupSize scoredSeats assignedSeatIds soloSeatIds
            (candidatesFor groupSize
              (scoredSeats.filter (fun s => !(assignedSeatIds.contains s.id))))) with
        _ | ⟨best, rest⟩
      · rw [hsort] at h
        exact absurd h (by simp)
      · rw [hsort] at h
        simp only [List.head?_cons, Option.map_some', Option.some.injEq] at h
        have hbest : best ∈ applySoloBonus groupSize scoredSeats assignedSeatIds soloSeatIds
            (candidatesFor groupSize
              (scoredSeats.filter (fun s => !(assignedSeatIds.contains s.id)))) := by
          have hmem : best ∈ List.insertionSort (fun a b => b.avgScore ≤ a.avgScore)
              (applySoloBonus groupSize scoredSeats assignedSeatIds soloSeatIds
                (candidatesFor groupSize
                  (scoredSeats.filter (fun s => !(assignedSeatIds.contains s.id))))) := by
            rw [hsort]
            exact List.mem_cons_self best rest
          exact (List.mem_insertionSort _).mp hmem
        rcases mem_applySoloBonus hbest with ⟨c0, hc0, hseats⟩
        rcases mem_candidatesFor hc0 with ⟨hlen, hmem⟩
        constructor
        · rw [← h, hseats, hlen]
        · intro s hs
          rw [← h, hseats] at hs
          have := hmem s hs
          have hmem2 := List.mem_filter.mp this
          refine ⟨hmem2.1, ?_⟩
          have := hmem2.2
          simpa using this

/-! ## Allocation fold invariants -/

theorem runAllocation_eq_allocFold (scoredSeats : List SeatWithScore)
    (attempts : List (Application × ℕ)) :
    runAllocation scoredSeats attempts = allocFold scoredSeats initAllocState attempts :=
  rfl

theorem allocateApp_inv {st : AllocState} (hinv : AllocInv st)
    (scoredSeats : List SeatWithScore) (app : Application) (tier : ℕ) :
    AllocInv (allocateApp scoredSeats st app tier) := by
  rw [allocateApp]
  rcases hfind : findAndAllocateSeats app.groupSize scoredSeats st.assignedSeatIds
      (if app.groupSize = 1 then some st.soloSeatIds else none) with _ | allocated
  · exact hinv
  · rcases findAndAllocateSeats_spec hfind with ⟨hlen, hseats⟩
    have hfresh : ∀ sid ∈ allocated.map (fun s => s.id), sid ∉ st.assignedSeatIds := by
      intro sid hsid
      rcases List.mem_map.mp hsid with ⟨s, hs, hid⟩
      have hfalse := (hseats s hs).2
      rw [← hid]
      intro hmem
      have htrue : st.assignedSeatIds.contains s.id = true := List.elem_iff.mpr hmem
      rw [hfalse] at htrue
      exact Bool.false_ne_true htrue
    constructor
    · intro a ha sid hsid
      simp only [List.mem_append, List.mem_singleton] at ha
      rcases ha with ha | ha
      · exact List.mem_append_left _ (hinv.1 a ha sid hsid)
      · subst ha
        exact List.mem_append_right _ hsid
    · rw [List.pairwise_append]
      refine ⟨hinv.2, List.pairwise_singleton _ _, ?_⟩
      intro a ha b hb sid hsid
      simp only [List.mem_singleton] at hb
      subst hb
      simp only
      intro hmem
      exact hfresh sid hmem (hinv.1 a ha sid hsid)

theorem allocFold_inv (scoredSeats : List SeatWithScore)
    (attempts : List (Application × ℕ)) :
    ∀ st : AllocState, AllocInv st → AllocInv (allocFold scoredSeats st attempts) := by
  induction attempts with
  | nil => intro st h; exact h
  | cons p rest ih =>
    intro st h
    exact ih _ (allocateApp_inv h scoredSeats p.1 p.2)

theorem initAllocState_inv : AllocInv initAllocState := by
  constructor
  · intro a ha
    simp [initAllocState] at ha
  · simp [initAllocState]

/-- The fold only appends to `assignments` and `unassigned`. -/
theorem allocFold_mono (scoredSeats : List SeatWithScore)
    (attempts : List (Application × ℕ)) :
    ∀ st : AllocState,
      st.assignments <+: (allocFold scoredSeats st attempts).assignments ∧
      st.unassigned <+: (allocFold scoredSeats st attempts).unassigned := by
  induction attempts with
  | nil => intro st; exact ⟨List.prefix_rfl, List.prefix_rfl⟩
  | cons p rest ih =>
    intro st
    have hstep : st.assignments <+: (allocateApp scoredSeats st p.1 p.2).assignments ∧
        st.unassigned <+: (allocateApp scoredSeats st p.1 p.2).unassigned := by
      rw [allocateApp]
      rcases hfind : findAndAllocateSeats p.1.groupSize scoredSeats st.assignedSeatIds
          (if p.1.groupSize = 1 then some st.soloSeatIds else none) with _ | allocated
      · exact ⟨List.prefix_rfl, List.prefix_append _ _⟩
      · exact ⟨List.prefix_append _ _, List.prefix_rfl⟩
    rcases ih (allocateApp scoredSeats st p.1 p.2) with ⟨h1, h2⟩
    exact ⟨hstep.1.trans h1, hstep.2.trans h2⟩

/-- Every attempted applicant ends up either with a full-size assignment or
in the unassigned list. -/
theorem allocFold_outcome (scoredSeats : List SeatWithScore)
    (attempts : List (Application × ℕ)) :
    ∀ st : AllocState, ∀ p ∈ attempts,
      (∃ a ∈ (allocFold scoredSeats st attempts).assignments,
        a.applicationId = p.1.id ∧ a.seatIds.length = p.1.groupSize) ∨
      p.1.id ∈ (allocFold scoredSeats st attempts).unassigned := by
  induction attempts with
  | nil => intro st p hp; simp at hp
  | cons q rest ih =>
    intro st p hp
    rcases List.mem_cons.mp hp with hp | hp
    · subst hp
      rw [allocFold, List.foldl_cons]
      rcases hfind : findAndAllocateSeats p.1.groupSize scoredSeats st.assignedSeatIds
          (if p.1.groupSize = 1 then some st.soloSeatIds else none) with _ | allocated
      · right
        have hstep : p.1.id ∈ (allocateApp scoredSeats st p.1 p.2).unassigned := by
          rw [allocateApp, hfind]
          simp
        have hpre := (allocFold_mono scoredSeats rest (allocateApp scoredSeats st p.1 p.2)).2
        exact hpre.subset hstep
      · left
        rcases findAndAllocateSeats_spec hfind with ⟨hlen, _⟩
        have hstep : (Assignment.mk p.1.id (allocated.map (fun s => s.id))
            ((allocated.map (fun s => s.score)).sum / (allocated.length : ℚ)) p.2 none)
            ∈ (allocateApp scoredSeats st p.1 p.2).assignments := by
          rw [allocateApp, hfind]
          simp [Assignment.mk]
        have hpre := (allocFold_mono scoredSeats rest (allocateApp scoredSeats st p.1 p.2)).1
        refine ⟨_, hpre.subset hstep, rfl, ?_⟩
        simp [hlen]
    · exact ih (allocateApp scoredSeats st q.1 q.2) p hp

/-- Every assignment produced by the fold either predates it or matches some
attempted applicant exactly (same id, seat count equal to the requested party
size, tier tag of that attempt). -/
theorem allocFold_provenance (scoredSeats : List SeatWithScore)
    (attempts : List (Application × ℕ)) :
    ∀ st : AllocState, ∀ a ∈ (allocFold scoredSeats st attempts).assignments,
      a ∈ st.assignments ∨ ∃ p ∈ attempts,
        a.applicationId = p.1.id ∧ a.seatIds.length = p.1.groupSize ∧ a.tier = p.2 := by
  induction attempts with
  | nil => intro st a ha; exact Or.inl ha
  | cons q rest ih =>
    intro st a ha
    rcases ih (allocateApp scoredSeats st q.1 q.2) a ha with h | ⟨p, hp, h1, h2, h3⟩
    · rw [allocateApp] at h
      rcases hfind : findAndAllocateSeats q.1.groupSize scoredSeats st.assignedSeatIds
          (if q.1.groupSize = 1 then some st.soloSeatIds else none) with _ | allocated
      · rw [hfind] at h
        exact Or.inl h
      · rw [hfind] at h
        simp only [List.mem_append, List.mem_singleton] at h
        rcases h with h | h
        · exact Or.inl h
        · right
          rcases findAndAllocateSeats_spec hfind with ⟨hlen, _⟩
          refine ⟨q, List.mem_cons_self _ _, ?_⟩
          subst h
          simp [hlen]
    · exact Or.inr ⟨p, List.mem_cons_of_mem _ hp, h1, h2, h3⟩

/-! ## Permutation lemmas for shuffling, sorting and hybrid selection -/

open List

theorem cons_set_perm {α : Type} (t : List α) :
    ∀ (j : ℕ) (a b : α), t[j]? = some b → b :: t.set j a ~ a :: t := by
  induction t with
  | nil => intro j a b h; simp at h
  | cons y t2 ih =>
    intro j a b h
    cases j with
    | zero =>
      simp at h
      subst h
      rw [List.set_cons_zero]
      exact List.Perm.swap _ _ _
    | succ k =>
      simp at h
      rw [List.set_cons_succ]
      have hik := ih k a b h
      calc b :: y :: t2.set k a
          ~ y :: b :: t2.set k a := List.Perm.swap _ _ _
        _ ~ y :: a :: t2 := hik.cons y
        _ ~ a :: y :: t2 := List.Perm.swap _ _ _

theorem set_set_perm {α : Type} :
    ∀ (l : List α) (i j : ℕ) (a b : α), l[i]? = some a → l[j]? = some b →
      (l.set i b).set j a ~ l := by
  intro l
  induction l with
  | nil => intro i j a b ha hb; simp at ha
  | cons x t ih =>
    intro i j a b ha hb
    cases i with
    | zero =>
      simp at ha
      subst ha
      cases j with
      | zero =>
        simp at hb
        subst hb
        simp
      | succ k =>
        simp at hb
        rw [List.set_cons_zero, List.set_cons_succ]
        exact cons_set_perm t k _ _ hb
    | succ m =>
      simp at ha
      cases j with
      | zero =>
        simp at hb
        subst hb
        rw [List.set_cons_succ, List.set_cons_zero]
        exact cons_set_perm t m _ _ ha
      | succ k =>
        simp at hb
        rw [List.set_cons_succ, List.set_cons_succ]
        exact (ih m k a b ha hb).cons x

theorem shuffleStep_perm (l : List Application) (i j : ℕ) : shuffleStep l i j ~ l := by
  rw [shuffleStep]
  rcases ha : l[i]? with _ | a
  · exact List.Perm.refl l
  · rcases hb : l[j]? with _ | b
    · exact List.Perm.refl l
    · exact set_set_perm l i j a b ha hb

theorem fyAux_perm (rand : ℕ → ℚ) :
    ∀ (i : ℕ) (l : List Application) (idx : ℕ), (fyAux rand i l idx).1 ~ l := by
  intro i
  induction i with
  | zero => intro l idx; exact List.Perm.refl l
  | succ n ih =>
    intro l idx
    rw [fyAux]
    exact (ih _ _).trans (shuffleStep_perm _ _ _)

theorem fisherYates_perm (rand : ℕ → ℚ) (l : List Application) (idx : ℕ) :
    (fisherYates rand l idx).1 ~ l :=
  fyAux_perm rand _ l idx

theorem hybridLoop_perm (rand : ℕ → ℚ) (w : ℚ) :
    ∀ (n : ℕ) (l : List Application) (idx : ℕ), l.length ≤ n →
      (hybridLoop rand w l idx).1 ~ l := by
  intro n
  induction n with
  | zero =>
    intro l idx h
    have : l = [] := List.eq_nil_of_length_eq_zero (Nat.le_zero.mp h)
    subst this
    rw [hybridLoop]
  | succ n ih =>
    intro l idx h
    rcases l with _ | ⟨a, rest⟩
    · rw [hybridLoop]
    · rw [hybridLoop]
      by_cases hr : rand idx < w
      · rw [if_pos hr]
        simp only
        rw [List.erase_cons_head]
        have hlen : rest.length ≤ n := by
          simp at h
          omega
        exact ((ih rest (idx + 1) hlen).cons a)
      · rw [if_neg hr]
        simp only
        have hchosen : (((a :: rest)[(Int.floor (rand (idx + 1) *
            (((a :: rest).length : ℕ) : ℚ))).toNat]?).getD a) ∈ a :: rest := by
          rcases hg : (a :: rest)[(Int.floor (rand (idx + 1) *
              (((a :: rest).length : ℕ) : ℚ))).toNat]? with _ | c
          · simp
          · simpa using List.getElem?_mem hg
        have hlen : ((a :: rest).erase (((a :: rest)[(Int.floor (rand (idx + 1) *
            (((a :: rest).length : ℕ) : ℚ))).toNat]?).getD a)).length ≤ n := by
          have := List.length_erase_of_mem hchosen
          simp only [this]
          simp at h ⊢
          omega
        have hperm := ih _ (idx + 2) hlen
        exact (hperm.cons _).trans (List.perm_cons_erase hchosen).symm

theorem hybridSelection_perm (rand : ℕ → ℚ) (w : ℚ) (candidates : List Application)
    (idx : ℕ) : (hybridSelection rand w candidates idx).1 ~ candidates := by
  rw [hybridSelection]
  exact (hybridLoop_perm rand w _ _ idx (Nat.le_refl _)).trans
    (List.perm_insertionSort _ candidates)

/-- The tier classification partitions the applicant list. -/
theorem tiers_partition_perm (apps : List Application) :
    tier1Apps apps ++ (tier2Apps apps ++ tier3Apps apps) ~ apps := by
  have h23 : tier2Apps apps ++ tier3Apps apps ~ apps.filter (fun a => !isTier1 a) := by
    have hf2 : tier2Apps apps =
        (apps.filter (fun a => !isTier1 a)).filter
          (fun a => a.lastResult == some LastResult.lose) := by
      rw [tier2Apps, List.filter_filter]
      apply List.filter_congr
      intro a ha
      rw [isTier2]
      exact Bool.and_comm _ _
    have hf3 : tier3Apps apps =
        (apps.filter (fun a => !isTier1 a)).filter
          (fun a => !(a.lastResult == some LastResult.lose)) := by
      rw [tier3Apps, List.filter_filter]
      apply List.filter_congr
      intro a ha
      rw [isTier3]
      exact Bool.and_comm _ _
    rw [hf2, hf3]
    exact List.filter_append_perm _ _
  have h1 := List.filter_append_perm isTier1 apps
  exact (List.Perm.append_left (tier1Apps apps) h23).trans h1

/-- A list is pairwise related by any reflexive-on-it relation that holds for
all pairs of its members. -/
theorem pairwise_of_forall_mem {α : Type} {R : α → α → Prop} {l : List α}
    (h : ∀ a ∈ l, ∀ b ∈ l, R a b) : l.Pairwise R := by
  induction l with
  | nil => exact List.Pairwise.nil
  | cons x t ih =>
    constructor
    · intro b hb
      exact h x (List.mem_cons_self _ _) b (List.mem_cons_of_mem _ hb)
    · exact ih (fun a ha b hb =>
        h a (List.mem_cons_of_mem _ ha) b (List.mem_cons_of_mem _ hb))

/-! ## Attempt-order characterisation -/

theorem lotteryAttempts_map_fst_perm (rand : ℕ → ℚ) (w : ℚ) (apps : List Application) :
    (lotteryAttempts rand w apps).map Prod.fst ~ apps := by
  have hmap : ∀ (k : ℕ) (l : List Application),
      (l.map (fun a => (a, k))).map Prod.fst = l := by
    intro k l
    induction l with
    | nil => rfl
    | cons x t ih => simp [ih]
  rw [lotteryAttempts]
  simp only [List.map_append]
  rw [hmap 1, hmap 2, hmap 3, List.append_assoc]
  have p1 := fisherYates_perm rand (tier1Apps apps) 0
  have p2 := List.perm_insertionSort (fun a b : Application => b.pastScore ≤ a.pastScore)
    (tier2Apps apps)
  have p3 := hybridSelection_perm rand w (tier3Apps apps)
    (fisherYates rand (tier1Apps apps) 0).2
  exact ((p1.append (p2.append p3))).trans (tiers_partition_perm apps)

theorem lotteryAttempts_tags (rand : ℕ → ℚ) (w : ℚ) (apps : List Application) :
    ∀ p ∈ lotteryAttempts rand w apps,
      (p.2 = 1 ∧ isTier1 p.1 = true) ∨ (p.2 = 2 ∧ isTier2 p.1 = true) ∨
        (p.2 = 3 ∧ isTier3 p.1 = true) := by
  intro p hp
  rw [lotteryAttempts] at hp
  simp only [List.mem_append] at hp
  rcases hp with (hp | hp) | hp
  · left
    rcases List.mem_map.mp hp with ⟨a, ha, hpa⟩
    have hmem := (fisherYates_perm rand (tier1Apps apps) 0).mem_iff.mp ha
    have := (List.mem_filter.mp hmem).2
    rw [← hpa]
    exact ⟨rfl, this⟩
  · right; left
    rcases List.mem_map.mp hp with ⟨a, ha, hpa⟩
    have hmem := (List.mem_insertionSort _).mp ha
    have := (List.mem_filter.mp hmem).2
    rw [← hpa]
    exact ⟨rfl, this⟩
  · right; right
    rcases List.mem_map.mp hp with ⟨a, ha, hpa⟩
    have hmem := (hybridSelection_perm rand w (tier3Apps apps) _).mem_iff.mp ha
    have := (List.mem_filter.mp hmem).2
    rw [← hpa]
    exact ⟨rfl, this⟩

theorem lotteryAttempts_tiers_mono (rand : ℕ → ℚ) (w : ℚ) (apps : List Application) :
    (lotteryAttempts rand w apps).Pairwise (fun p q => p.2 ≤ q.2) := by
  rw [lotteryAttempts]
  have htag : ∀ (k : ℕ) (l : List Application) (p : Application × ℕ),
      p ∈ l.map (fun a => (a, k)) → p.2 = k := by
    intro k l p hp
    rcases List.mem_map.mp hp with ⟨a, _, hpa⟩
    rw [← hpa]
  apply List.pairwise_append.mpr
  refine ⟨List.pairwise_append.mpr ⟨?_, ?_, ?_⟩, ?_, ?_⟩
  · exact pairwise_of_forall_mem (fun p hp q hq => by
      rw [htag 1 _ p hp, htag 1 _ q hq])
  · exact pairwise_of_forall_mem (fun p hp q hq => by
      rw [htag 2 _ p hp, htag 2 _ q hq])
  · intro p hp q hq
    rw [htag 1 _ p hp, htag 2 _ q hq]
    omega
  · exact pairwise_of_forall_mem (fun p hp q hq => by
      rw [htag 3 _ p hp, htag 3 _ q hq])
  · intro p hp q hq
    rw [htag 3 _ q hq]
    rcases List.mem_append.mp hp with hp | hp
    · rw [htag 1 _ p hp]; omega
    · rw [htag 2 _ p hp]; omega

/-! ## First-maximum characterisation of the stable descending sort -/

theorem head_insertionSort_firstMax {α : Type} (key : α → ℚ) :
    ∀ (l : List α) (x : α),
      (List.insertionSort (fun a b => key b ≤ key a) l).head? = some x →
      ∃ l1 l2, l = l1 ++ x :: l2 ∧ (∀ y ∈ l, key y ≤ key x) ∧
        ∀ y ∈ l1, key y < key x := by
  intro l
  induction l with
  | nil => intro x h; simp [List.insertionSort] at h
  | cons a t ih =>
    intro x h
    rw [List.insertionSort] at h
    rcases hs : List.insertionSort (fun a b => key b ≤ key a) t with _ | ⟨b, s⟩
    · have ht : t = [] := by
        have hp := List.perm_insertionSort (fun a b => key b ≤ key a) t
        rw [hs] at hp
        exact hp.symm.eq_nil
      rw [hs] at h
      simp [List.orderedInsert] at h
      subst ht
      subst h
      exact ⟨[], [], by simp, by simp, by simp⟩
    · rw [hs] at h
      rw [List.orderedInsert] at h
      by_cases hab : key b ≤ key a
      · rw [if_pos (by simpa using hab)] at h
        simp at h
        subst h
        rcases ih b (by rw [hs]; rfl) with ⟨l1, l2, heq, hmax, hlt⟩
        refine ⟨[], t, by simp, ?_, by simp⟩
        intro y hy
        rcases List.mem_cons.mp hy with hy | hy
        · rw [hy]
        · exact le_trans (hmax y hy) hab
      · rw [if_neg (by simpa using hab)] at h
        simp at h
        subst h
        rcases ih b (by rw [hs]; rfl) with ⟨l1, l2, heq, hmax, hlt⟩
        have hba : key a < key b := lt_of_not_le hab
        refine ⟨a :: l1, l2, by rw [heq, List.cons_append], ?_, ?_⟩
        · intro y hy
          rcases List.mem_cons.mp hy with hy | hy
          · rw [hy]; exact le_of_lt hba
          · exact hmax y hy
        · intro y hy
          rcases List.mem_cons.mp hy with hy | hy
          · rw [hy]; exact hba
          · exact hlt y hy

/-! ## Remaining helper lemmas -/

theorem assignSeatQuality_proj (l : List Assignment) :
    (assignSeatQuality l).map (fun a => (a.applicationId, a.seatIds, a.tier))
      = l.map (fun a => (a.applicationId, a.seatIds, a.tier)) := by
  rw [assignSeatQuality]
  by_cases h : (l.filter (fun a => a.tier != 1)).length = 0
  · rw [if_pos h]
  · rw [if_neg h]
    rw [List.map_map]
    apply List.map_congr_left
    intro a ha
    by_cases ht : a.tier = 1
    · simp [ht]
    · simp [ht]

theorem mem_map_of_map_eq {α β : Type} {f : α → β} {l1 l2 : List α}
    (h : l1.map f = l2.map f) : ∀ a ∈ l1, ∃ b ∈ l2, f b = f a := by
  intro a ha
  have : f a ∈ l2.map f := by
    rw [← h]
    exact List.mem_map_of_mem f ha
  rcases List.mem_map.mp this with ⟨b, hb, hfb⟩
  exact ⟨b, hb, hfb⟩

theorem ratSqrt_nonneg (q : ℚ) : 0 ≤ ratSqrt q := by
  rw [ratSqrt]
  by_cases h : q.num ≤ 0
  · rw [if_pos h]
  · rw [if_neg h]
    apply div_nonneg
    · exact Nat.cast_nonneg _
    · exact Nat.cast_nonneg _

theorem ratSqrt_zero : ratSqrt 0 = 0 := by
  unfold ratSqrt
  norm_num

theorem specQualityDelta_eq_qualityChange (q : SeatQuality) :
    specQualityDelta q = qualityChange q := by
  cases q <;> rfl

theorem length_filterMap_eq {α β : Type} (f : α → Option β) (l : List α) :
    (l.filterMap f).length = (l.filter (fun x => (f x).isSome)).length := by
  induction l with
  | nil => rfl
  | cons x t ih =>
    rcases hfx : f x with _ | b
    · simp [List.filterMap_cons, hfx, ih]
    · simp [List.filterMap_cons, hfx, ih]

/-! ## Claim theorems -/

/-- C5: `calculateSeatScore` returns
`max(0, 100 − (distance/maxDistance)×100) + (isPremium ? 1000 : 0)`, and for
any positive `maxDistance` (and any square-root function that is non-negative
on non-negative inputs, as the real square root is) every premium seat has a
score strictly greater than that of every non-premium seat. -/
theorem claim_C5_premium_dominance :
    (∀ (sqrtFn : ℚ → ℚ) (seat : Seat) (stage : ℚ × ℚ) (maxDistance : ℚ),
      (calculateSeatScore sqrtFn seat stage maxDistance).score =
        max 0 (100 - calculateDistance sqrtFn seat.x seat.y stage.1 stage.2
            / maxDistance * 100)
          + (if seat.isPremium then 1000 else 0)) ∧
    (∀ sqrtFn : ℚ → ℚ, (∀ q : ℚ, 0 ≤ q → 0 ≤ sqrtFn q) →
      ∀ maxDistance : ℚ, 0 < maxDistance →
        ∀ (s1 s2 : Seat) (stage : ℚ × ℚ), s1.isPremium = true → s2.isPremium = false →
          (calculateSeatScore sqrtFn s2 stage maxDistance).score <
            (calculateSeatScore sqrtFn s1 stage maxDistance).score) := by
  constructor
  · intro sqrtFn seat stage maxDistance
    rfl
  · intro sqrtFn hsq maxDistance hmd s1 s2 stage hp1 hp2
    have hd2 : 0 ≤ calculateDistance sqrtFn s2.x s2.y stage.1 stage.2 := by
      rw [calculateDistance]
      apply hsq
      positivity
    have ht2 : 0 ≤ calculateDistance sqrtFn s2.x s2.y stage.1 stage.2
        / maxDistance * 100 := by
      apply mul_nonneg
      · exact div_nonneg hd2 (le_of_lt hmd)
      · norm_num
    have hs2 : max 0 (100 - calculateDistance sqrtFn s2.x s2.y stage.1 stage.2
        / maxDistance * 100) ≤ 100 := by
      apply max_le
      · norm_num
      · linarith
    have hs1 : (0 : ℚ) ≤ max 0 (100 - calculateDistance sqrtFn s1.x s1.y stage.1 stage.2
        / maxDistance * 100) := le_max_left 0 _
    simp only [calculateSeatScore, hp1, hp2]
    norm_num
    constructor <;> linarith

/-- C5 witness: at `sqrtFn := ratSqrt`, `maxDistance := 1`, a premium and a
non-premium seat, the premium seat scores strictly higher. -/
theorem claim_C5_premium_dominance_witness :
    (calculateSeatScore ratSqrt plainSeat (0, 0) 1).score <
      (calculateSeatScore ratSqrt premSeat (0, 0) 1).score :=
  claim_C5_premium_dominance.2 ratSqrt (fun q _ => ratSqrt_nonneg q) 1 one_pos
    premSeat plainSeat (0, 0) rfl rfl

/-- C9: with no available (non-disabled) seat or no applicant, `assignSeats`
returns the short-circuit result: no assignments, all applicant ids unassigned
in input order, and zeroed availability statistics. -/
theorem claim_C9_degenerate_result (sqrtFn : ℚ → ℚ) (rand : ℕ → ℚ) (seats : List Seat)
    (applications : List Application) (config : LotteryConfig)
    (h : (seats.filter (fun s => !s.isDisabled)).length = 0 ∨ applications.length = 0) :
    (assignSeats sqrtFn rand seats applications config).assignments = [] ∧
    (assignSeats sqrtFn rand seats applications config).unassigned
      = applications.map (fun a => a.id) ∧
    (assignSeats sqrtFn rand seats applications config).stats.availableSeats = 0 ∧
    (assignSeats sqrtFn rand seats applications config).stats.totalPeopleAssigned = 0 ∧
    (assignSeats sqrtFn rand seats applications config).stats.averageScore = 0 ∧
    (assignSeats sqrtFn rand seats applications config).stats.tier1Count = 0 ∧
    (assignSeats sqrtFn rand seats applications config).stats.tier2Count = 0 ∧
    (assignSeats sqrtFn rand seats applications config).stats.tier3Count = 0 ∧
    (assignSeats sqrtFn rand seats applications config).stats.tier2OverflowCount = 0 := by
  have hres : assignSeats sqrtFn rand seats applications config
      = degenerateResult seats applications := by
    rw [assignSeats]
    rw [if_pos h]
  rw [hres]
  simp [degenerateResult]

/-- C9 witness: the degenerate result at an empty seat list. -/
theorem claim_C9_degenerate_result_witness :
    (assignSeats ratSqrt demoRand [] [demoInv] demoCfg).assignments = [] ∧
    (assignSeats ratSqrt demoRand [] [demoInv] demoCfg).unassigned
      = [demoInv].map (fun a => a.id) ∧
    (assignSeats ratSqrt demoRand [] [demoInv] demoCfg).stats.availableSeats = 0 ∧
    (assignSeats ratSqrt demoRand [] [demoInv] demoCfg).stats.totalPeopleAssigned = 0 ∧
    (assignSeats ratSqrt demoRand [] [demoInv] demoCfg).stats.averageScore = 0 ∧
    (assignSeats ratSqrt demoRand [] [demoInv] demoCfg).stats.tier1Count = 0 ∧
    (assignSeats ratSqrt demoRand [] [demoInv] demoCfg).stats.tier2Count = 0 ∧
    (assignSeats ratSqrt demoRand [] [demoInv] demoCfg).stats.tier3Count = 0 ∧
    (assignSeats ratSqrt demoRand [] [demoInv] demoCfg).stats.tier2OverflowCount = 0 :=
  claim_C9_degenerate_result ratSqrt demoRand [] [demoInv] demoCfg (Or.inl rfl)

/-- C10: every ScoreUpdate corresponds to an application present in the
`applications` argument (first match by id), and the number of updates is
exactly the number of assignments plus unassigned ids whose application
lookup succeeds — unmatched entries are skipped without error. -/
theorem claim_C10_matched_updates (assignments : List Assignment)
    (unassigned : List String) (applications : List Application) :
    (∀ u ∈ calculateScoreUpdates assignments unassigned applications,
      ∃ app ∈ applications, app.id = u.applicationId) ∧
    (calculateScoreUpdates assignments unassigned applications).length =
      (assignments.filter (fun a =>
        (applications.find? (fun ap => ap.id == a.applicationId)).isSome)).length +
      (unassigned.filter (fun uid =>
        (applications.find? (fun ap => ap.id == uid)).isSome)).length := by
  constructor
  · intro u hu
    rw [calculateScoreUpdates] at hu
    simp only [List.mem_append] at hu
    rcases hu with hu | hu
    · rcases List.mem_filterMap.mp hu with ⟨a, ha, hfa⟩
      rcases Option.map_eq_some'.mp hfa with ⟨app, hfind, hgu⟩
      refine ⟨app, List.mem_of_find?_eq_some hfind, ?_⟩
      have hid : app.id = a.applicationId := by
        have := List.find?_some hfind
        simpa using this
      have huid : u.applicationId = a.applicationId := by
        rw [← hgu]
        split <;> rfl
      rw [hid, huid]
    · rcases List.mem_filterMap.mp hu with ⟨uid, ha, hfa⟩
      rcases Option.map_eq_some'.mp hfa with ⟨app, hfind, hgu⟩
      refine ⟨app, List.mem_of_find?_eq_some hfind, ?_⟩
      have hid : app.id = uid := by
        have := List.find?_some hfind
        simpa using this
      have huid : u.applicationId = uid := by
        rw [← hgu]
        split <;> rfl
      rw [hid, huid]
  · rw [calculateScoreUpdates]
    simp only [List.length_append]
    rw [length_filterMap_eq, length_filterMap_eq]
    congr 1
    · apply congrArg
      apply List.filter_congr
      intro a ha
      rcases hf : List.find? (fun ap => ap.id == a.applicationId) applications with _ | app <;>
        simp [hf]
    · apply congrArg
      apply List.filter_congr
      intro uid ha
      rcases hf : List.find? (fun ap => ap.id == uid) applications with _ | app <;>
        simp [hf]

/-- C10 witness: one matched assignment, one unmatched unassigned id — the
update count equals the matched count. -/
theorem claim_C10_matched_updates_witness :
    (calculateScoreUpdates [c4Assignment] ["nobody"] [c4App]).length =
      ([c4Assignment].filter (fun a =>
        (([c4App]).find? (fun ap => ap.id == a.applicationId)).isSome)).length +
      (["nobody"].filter (fun uid =>
        (([c4App]).find? (fun ap => ap.id == uid)).isSome)).length :=
  (claim_C10_matched_updates [c4Assignment] ["nobody"] [c4App]).2

/-- C4: for every matched entry, `calculateScoreUpdates` produces exactly the
update demanded by the spec: seated non-priority applicants get
`clamp(pastScore + qualityDelta, 1, 10)` according to the per-assignment
seat-quality label, unseated non-priority applicants get
`clamp(pastScore + 6, 1, 10)`, and priority applicants keep their score with
change 0. -/
theorem claim_C4_score_update_formulas (assignments : List Assignment)
    (unassigned : List String) (applications : List Application) :
    (∀ a ∈ assignments, ∀ app : Application,
      applications.find? (fun ap => ap.id == a.applicationId) = some app →
      ((app.isInvitation = false ∧ app.isRelation = false) →
        ∀ q : SeatQuality, a.seatQuality = some q →
        (ScoreUpdate.mk a.applicationId app.pastScore
            (specClamp (app.pastScore + specQualityDelta q))
            (specClamp (app.pastScore + specQualityDelta q) - app.pastScore)
            (QualityOrLose.quality q) LastResult.win)
          ∈ calculateScoreUpdates assignments unassigned applications) ∧
      ((app.isInvitation = true ∨ app.isRelation = true) →
        (ScoreUpdate.mk a.applicationId app.pastScore app.pastScore 0
            (QualityOrLose.quality (a.seatQuality.getD SeatQuality.normal)) LastResult.win)
          ∈ calculateScoreUpdates assignments unassigned applications)) ∧
    (∀ uid ∈ unassigned, ∀ app : Application,
      applications.find? (fun ap => ap.id == uid) = some app →
      ((app.isInvitation = false ∧ app.isRelation = false) →
        (ScoreUpdate.mk uid app.pastScore (specClamp (app.pastScore + 6))
            (specClamp (app.pastScore + 6) - app.pastScore)
            QualityOrLose.lose LastResult.lose)
          ∈ calculateScoreUpdates assignments unassigned applications) ∧
      ((app.isInvitation = true ∨ app.isRelation = true) →
        (ScoreUpdate.mk uid app.pastScore app.pastScore 0
            QualityOrLose.lose LastResult.lose)
          ∈ calculateScoreUpdates assignments unassigned applications)) := by
  constructor
  · intro a ha app hfind
    constructor
    · intro hnp q hq
      rw [calculateScoreUpdates]
      apply List.mem_append_left
      apply List.mem_filterMap.mpr
      refine ⟨a, ha, ?_⟩
      rw [hfind]
      simp only [Option.map_some']
      rw [hnp.1, hnp.2]
      simp only [Bool.or_self, if_neg (by simp : ¬(false = true))]
      rw [hq]
      simp [specClamp, specQualityDelta_eq_qualityChange, max_comm]
    · intro hpri
      rw [calculateScoreUpdates]
      apply List.mem_append_left
      apply List.mem_filterMap.mpr
      refine ⟨a, ha, ?_⟩
      rw [hfind]
      simp only [Option.map_some']
      have hc : (app.isInvitation || app.isRelation) = true := by
        rcases hpri with h | h
        · rw [h]; rfl
        · rw [h]; simp
      rw [if_pos hc]
  · intro uid hu app hfind
    constructor
    · intro hnp
      rw [calculateScoreUpdates]
      apply List.mem_append_right
      apply List.mem_filterMap.mpr
      refine ⟨uid, hu, ?_⟩
      rw [hfind]
      simp only [Option.map_some']
      rw [hnp.1, hnp.2]
      simp only [Bool.or_self, if_neg (by simp : ¬(false = true))]
      simp [specClamp, max_comm]
    · intro hpri
      rw [calculateScoreUpdates]
      apply List.mem_append_right
      apply List.mem_filterMap.mpr
      refine ⟨uid, hu, ?_⟩
      rw [hfind]
      simp only [Option.map_some']
      have hc : (app.isInvitation || app.isRelation) = true := by
        rcases hpri with h | h
        · rw [h]; rfl
        · rw [h]; simp
      rw [if_pos hc]

/-- C4 witness: a `top`-labelled assignment of a non-priority applicant with
past score 9 yields the update `clamp(9 − 4, 1, 10)`. -/
theorem claim_C4_score_update_formulas_witness :
    (ScoreUpdate.mk c4Assignment.applicationId c4App.pastScore
        (specClamp (c4App.pastScore + specQualityDelta SeatQuality.top))
        (specClamp (c4App.pastScore + specQualityDelta SeatQuality.top) - c4App.pastScore)
        (QualityOrLose.quality SeatQuality.top) LastResult.win)
      ∈ calculateScoreUpdates [c4Assignment] [] [c4App] :=
  ((claim_C4_score_update_formulas [c4Assignment] [] [c4App]).1 c4Assignment
    (List.mem_singleton_self _) c4App rfl).1 ⟨rfl, rfl⟩ SeatQuality.top rfl

/-- C8 counterexample: the claim "every ScoreUpdate, including priority
pass-throughs, satisfies 1 ≤ nextScore ≤ 10" is false on the code: a priority
applicant with pastScore 0 is passed through unchanged, so nextScore = 0. -/
theorem claim_C8_counterexample :
    ∃ u ∈ calculateScoreUpdates [] ["u1"] [cexPriorityApp], ¬(1 ≤ u.nextScore) := by
  have heval : calculateScoreUpdates [] ["u1"] [cexPriorityApp]
      = [ScoreUpdate.mk "u1" 0 0 0 QualityOrLose.lose LastResult.lose] := by
    norm_num [calculateScoreUpdates, cexPriorityApp, List.filterMap_cons]
  rw [heval]
  refine ⟨ScoreUpdate.mk "u1" 0 0 0 QualityOrLose.lose LastResult.lose,
    List.mem_singleton_self _, ?_⟩
  norm_num

/-- C8 (amended): every ScoreUpdate is either the unclamped pass-through of a
priority applicant (nextScore equal to that pastScore), or — in particular for
every non-priority applicant, unconditionally — has `1 ≤ nextScore ≤ 10`; and
whenever the priority applicants already have `pastScore` in [1, 10] (the
documented score domain), every ScoreUpdate satisfies `1 ≤ nextScore ≤ 10`. -/
theorem claim_C8_amended_bounds (assignments : List Assignment)
    (unassigned : List String) (applications : List Application) :
    (∀ u ∈ calculateScoreUpdates assignments unassigned applications,
      (∃ app ∈ applications, (app.isInvitation || app.isRelation) = true ∧
        app.id = u.applicationId ∧ u.nextScore = app.pastScore) ∨
      (1 ≤ u.nextScore ∧ u.nextScore ≤ 10)) ∧
    ((∀ app ∈ applications, (app.isInvitation || app.isRelation) = true →
        1 ≤ app.pastScore ∧ app.pastScore ≤ 10) →
      ∀ u ∈ calculateScoreUpdates assignments unassigned applications,
        1 ≤ u.nextScore ∧ u.nextScore ≤ 10) := by
  have hclamp : ∀ x : ℚ, 1 ≤ max 1 (min 10 x) ∧ max 1 (min 10 x) ≤ 10 := by
    intro x
    refine ⟨le_max_left 1 _, ?_⟩
    apply max_le
    · norm_num
    · exact min_le_left 10 x
  have hmain : ∀ u ∈ calculateScoreUpdates assignments unassigned applications,
      (∃ app ∈ applications, (app.isInvitation || app.isRelation) = true ∧
        app.id = u.applicationId ∧ u.nextScore = app.pastScore) ∨
      (1 ≤ u.nextScore ∧ u.nextScore ≤ 10) := by
    intro u hu
    rw [calculateScoreUpdates] at hu
    simp only [List.mem_append] at hu
    rcases hu with hu | hu
    · rcases List.mem_filterMap.mp hu with ⟨a, ha, hfa⟩
      rcases Option.map_eq_some'.mp hfa with ⟨app, hfind, hgu⟩
      by_cases hpri : (app.isInvitation || app.isRelation) = true
      · left
        refine ⟨app, List.mem_of_find?_eq_some hfind, hpri, ?_, ?_⟩
        · have hid : app.id = a.applicationId := by
            have := List.find?_some hfind
            simpa using this
          have huid : u.applicationId = a.applicationId := by
            rw [← hgu]
            split <;> rfl
          rw [hid, huid]
        · rw [← hgu, if_pos hpri]
      · right
        rw [← hgu, if_neg hpri]
        exact hclamp _
    · rcases List.mem_filterMap.mp hu with ⟨uid, hun, hfa⟩
      rcases Option.map_eq_some'.mp hfa with ⟨app, hfind, hgu⟩
      by_cases hpri : (app.isInvitation || app.isRelation) = true
      · left
        refine ⟨app, List.mem_of_find?_eq_some hfind, hpri, ?_, ?_⟩
        · have hid : app.id = uid := by
            have := List.find?_some hfind
            simpa using this
          have huid : u.applicationId = uid := by
            rw [← hgu]
            split <;> rfl
          rw [hid, huid]
        · rw [← hgu, if_pos hpri]
      · right
        rw [← hgu, if_neg hpri]
        exact hclamp _
  refine ⟨hmain, ?_⟩
  intro hdom u hu
  rcases hmain u hu with ⟨app, happ, hpri, _, hnext⟩ | hbounds
  · rw [hnext]
    exact hdom app happ hpri
  · exact hbounds

/-- C8 witness: a non-priority applicant with the out-of-domain pastScore −100
still gets a clamped update (nextScore = 1, within bounds), and an unseated
in-domain applicant gets nextScore = clamp(5 + 6) = 10. -/
theorem claim_C8_amended_bounds_witness :
    ((∃ app ∈ [cexLowApp], (app.isInvitation || app.isRelation) = true ∧
        app.id = (ScoreUpdate.mk "u3" (-100) 1 101 QualityOrLose.lose
          LastResult.lose).applicationId ∧
        (ScoreUpdate.mk "u3" (-100) 1 101 QualityOrLose.lose
          LastResult.lose).nextScore = app.pastScore) ∨
      (1 ≤ (ScoreUpdate.mk "u3" (-100) 1 101 QualityOrLose.lose
          LastResult.lose).nextScore ∧
        (ScoreUpdate.mk "u3" (-100) 1 101 QualityOrLose.lose
          LastResult.lose).nextScore ≤ 10)) ∧
    (1 ≤ (ScoreUpdate.mk "u2" 5 10 5 QualityOrLose.lose LastResult.lose).nextScore ∧
      (ScoreUpdate.mk "u2" 5 10 5 QualityOrLose.lose LastResult.lose).nextScore ≤ 10) := by
  have hmem1 : (ScoreUpdate.mk "u3" (-100) 1 101 QualityOrLose.lose LastResult.lose)
      ∈ calculateScoreUpdates [] ["u3"] [cexLowApp] := by
    norm_num [calculateScoreUpdates, cexLowApp, List.filterMap_cons]
  have hdom : ∀ app ∈ [c8App], (app.isInvitation || app.isRelation) = true →
      1 ≤ app.pastScore ∧ app.pastScore ≤ 10 := by
    intro app happ
    rw [List.mem_singleton] at happ
    subst happ
    intro hpri
    norm_num [c8App]
  have hmem2 : (ScoreUpdate.mk "u2" 5 10 5 QualityOrLose.lose LastResult.lose)
      ∈ calculateScoreUpdates [] ["u2"] [c8App] := by
    norm_num [calculateScoreUpdates, c8App, List.filterMap_cons]
  exact ⟨(claim_C8_amended_bounds [] ["u3"] [cexLowApp]).1 _ hmem1,
    (claim_C8_amended_bounds [] ["u2"] [c8App]).2 hdom _ hmem2⟩

/-- Evaluation helper: the two block-"A" seats (one at (0,1), one
coordinate-less) merge into a single chunk. -/
theorem buildAllChunks_cex_eval :
    buildAllChunks [cexSeatA, cexSeatB] = [mkChunk "A" 0 [cexSeatB, cexSeatA]] := by
  norm_num [buildAllChunks, groupByKey, insertGrouped, groupKey, splitChunks, colOf,
    List.insertionSort, List.orderedInsert, cexSeatA, cexSeatB, List.flatMap]

/-- C7 counterexample: a seat with undefined row and col does NOT always form
its own single-seat chunk: in block "A" it is keyed as (row 0, col 0) of that
block and merges with the real seat at (row 0, col 1) into a chunk of
length 2. -/
theorem claim_C7_counterexample :
    ∃ c ∈ buildAllChunks [cexSeatA, cexSeatB],
      cexSeatB ∈ c.seats ∧ cexSeatB.col = none ∧ cexSeatB.row = none ∧
        c.seats.length = 2 := by
  rw [buildAllChunks_cex_eval]
  refine ⟨mkChunk "A" 0 [cexSeatB, cexSeatA], List.mem_singleton_self _, ?_, rfl, rfl, rfl⟩
  exact List.mem_cons_self _ _

/-- C7 (amended): a seat with undefined row or col is grouped under key
(blockId ?? "default", row ?? 0) with column defaulting to 0 — not under a
private pseudo-block. Within any produced chunk the defaulted columns are
strictly consecutive, so a chunk never contains two coordinate-less seats
(two such seats never merge with each other), but a coordinate-less seat can
share a chunk with a seat of the same block whose defaulted row matches and
whose column is 1. -/
theorem claim_C7_amended_chunking (seats : List SeatWithScore) :
    ∀ c ∈ buildAllChunks seats,
      List.Chain' (fun a b => colOf b = colOf a + 1) c.seats ∧
      (c.seats.filter (fun s => s.col == none)).length ≤ 1 := by
  intro c hc
  have hchain := chain_of_mem_buildAllChunks hc
  refine ⟨hchain, ?_⟩
  have hmap : List.Chain' (fun x y : ℤ => x < y) (c.seats.map colOf) := by
    rw [List.chain'_map]
    exact hchain.imp (fun a b h => by omega)
  have hpw : (c.seats.map colOf).Pairwise (fun x y : ℤ => x < y) :=
    List.chain'_iff_pairwise.mp hmap
  rcases hf : c.seats.filter (fun s => s.col == none) with _ | ⟨x, xs⟩
  · simp [hf]
  · rcases xs with _ | ⟨y, ys⟩
    · simp [hf]
    · exfalso
      have hsub : [x, y] <+ c.seats := by
        have h1 : [x, y] <+ x :: y :: ys :=
          ((List.nil_sublist ys).cons₂ y).cons₂ x
        have h2 : x :: y :: ys <+ c.seats := by
          rw [← hf]
          exact List.filter_sublist _
        exact h1.trans h2
      have hsubm : [colOf x, colOf y] <+ c.seats.map colOf := by
        simpa using hsub.map colOf
      have hpw2 := hpw.sublist hsubm
      have hxy : colOf x < colOf y := by
        rcases List.pairwise_cons.mp hpw2 with ⟨h, _⟩
        exact h _ (List.mem_singleton_self _)
      have hxmem : x ∈ c.seats.filter (fun s => s.col == none) := by
        rw [hf]
        exact List.mem_cons_self _ _
      have hymem : y ∈ c.seats.filter (fun s => s.col == none) := by
        rw [hf]
        exact List.mem_cons_of_mem _ (List.mem_cons_self _ _)
      have hx : x.col = none := by
        have := (List.mem_filter.mp hxmem).2
        simpa using this
      have hy : y.col = none := by
        have := (List.mem_filter.mp hymem).2
        simpa using this
      rw [colOf, colOf, hx, hy] at hxy
      simp at hxy

/-- C7 amended witness: the concrete merged chunk satisfies the amended
property (consecutive defaulted columns, at most one coordinate-less seat). -/
theorem claim_C7_amended_chunking_witness :
    List.Chain' (fun a b => colOf b = colOf a + 1)
        (mkChunk "A" 0 [cexSeatB, cexSeatA]).seats ∧
      ((mkChunk "A" 0 [cexSeatB, cexSeatA]).seats.filter
        (fun s => s.col == none)).length ≤ 1 :=
  claim_C7_amended_chunking [cexSeatA, cexSeatB] (mkChunk "A" 0 [cexSeatB, cexSeatA])
    (by rw [buildAllChunks_cex_eval]; exact List.mem_singleton_self _)

/-- Evaluation helper for scenario A: with 5 contiguous seats scored
[10,20,30,40,50] and a party of 3, the allocator picks the run scored
[30,40,50]. -/
theorem findAndAllocateSeats_c6_eval :
    findAndAllocateSeats 3 c6Seats [] none
      = some [c6Seat "c" 2 30, c6Seat "d" 3 40, c6Seat "e" 4 50] := by
  norm_num [findAndAllocateSeats, candidatesFor, buildAllChunks, groupByKey, insertGrouped,
    groupKey, splitChunks, colOf, mkChunk, chunkAvg, getSubChunks, applySoloBonus,
    List.insertionSort, List.orderedInsert, c6Seats, c6Seat, List.range, List.range.loop,
    List.flatMap]

/-- C6: whenever `findAndAllocateSeats` succeeds it returns the candidate
sub-run with the highest average score among all size-`groupSize` sub-runs
(after the solo-adjacency bonus), and among ties the one earliest in the
candidate enumeration order (stable descending sort); concretely, for seats
scored [10,20,30,40,50] and party size 3 it picks the seats scored
[30,40,50], whose average is 40. -/
theorem claim_C6_best_subrun :
    (∀ (groupSize : ℕ) (scoredSeats : List SeatWithScore) (assignedSeatIds : List String)
      (soloSeatIds : Option (List String)) (r : List SeatWithScore),
      findAndAllocateSeats groupSize scoredSeats assignedSeatIds soloSeatIds = some r →
      ∃ (c : SeatChunk) (l1 l2 : List SeatChunk),
        applySoloBonus groupSize scoredSeats assignedSeatIds soloSeatIds
            (candidatesFor groupSize
              (scoredSeats.filter (fun s => !(assignedSeatIds.contains s.id))))
          = l1 ++ c :: l2 ∧
        r = c.seats ∧
        (∀ y ∈ l1 ++ c :: l2, y.avgScore ≤ c.avgScore) ∧
        (∀ y ∈ l1, y.avgScore < c.avgScore)) ∧
    (findAndAllocateSeats 3 c6Seats [] none
        = some [c6Seat "c" 2 30, c6Seat "d" 3 40, c6Seat "e" 4 50] ∧
      chunkAvg [c6Seat "c" 2 30, c6Seat "d" 3 40, c6Seat "e" 4 50] = 40) := by
  constructor
  · intro groupSize scoredSeats assignedSeatIds soloSeatIds r h
    rw [findAndAllocateSeats] at h
    by_cases h1 : (scoredSeats.filter (fun s => !(assignedSeatIds.contains s.id))).length
        < groupSize
    · rw [if_pos h1] at h
      exact absurd h (by simp)
    · rw [if_neg h1] at h
      by_cases h2 : (candidatesFor groupSize
          (scoredSeats.filter (fun s => !(assignedSeatIds.contains s.id)))).length = 0
      · rw [if_pos h2] at h
        exact absurd h (by simp)
      · rw [if_neg h2] at h
        rcases hsort : List.insertionSort (fun a b => b.avgScore ≤ a.avgScore)
            (applySoloBonus groupSize scoredSeats assignedSeatIds soloSeatIds
              (candidatesFor groupSize
                (scoredSeats.filter (fun s => !(assignedSeatIds.contains s.id))))) with
          _ | ⟨best, rest⟩
        · rw [hsort] at h
          exact absurd h (by simp)
        · rw [hsort] at h
          simp only [List.head?_cons, Option.map_some', Option.some.injEq] at h
          rcases head_insertionSort_firstMax (fun c : SeatChunk => c.avgScore) _ best
              (by rw [hsort]; rfl) with ⟨l1, l2, heq, hmax, hlt⟩
          refine ⟨best, l1, l2, heq, h.symm, ?_, hlt⟩
          rw [← heq]
          exact hmax
  · constructor
    · exact findAndAllocateSeats_c6_eval
    · norm_num [chunkAvg, c6Seat]

/-- C6 witness: the general best-sub-run property instantiated at scenario A. -/
theorem claim_C6_best_subrun_witness :
    ∃ (c : SeatChunk) (l1 l2 : List SeatChunk),
      applySoloBonus 3 c6Seats [] none
          (candidatesFor 3 (c6Seats.filter (fun s => !(([] : List String).contains s.id))))
        = l1 ++ c :: l2 ∧
      [c6Seat "c" 2 30, c6Seat "d" 3 40, c6Seat "e" 4 50] = c.seats ∧
      (∀ y ∈ l1 ++ c :: l2, y.avgScore ≤ c.avgScore) ∧
      (∀ y ∈ l1, y.avgScore < c.avgScore) :=
  claim_C6_best_subrun.1 3 c6Seats [] none _ findAndAllocateSeats_c6_eval

/-- In the non-degenerate case, `assignSeats` returns the quality-stamped
allocation-fold assignments and its unassigned list. -/
theorem assignSeats_main (sqrtFn : ℚ → ℚ) (rand : ℕ → ℚ) (seats : List Seat)
    (applications : List Application) (config : LotteryConfig)
    (h : ¬((seats.filter (fun s => !s.isDisabled)).length = 0 ∨
        applications.length = 0)) :
    (assignSeats sqrtFn rand seats applications config).assignments
      = assignSeatQuality (runAllocation
          (scoredSeatsFor sqrtFn (seats.filter (fun s => !s.isDisabled))
            config.stagePosition)
          (lotteryAttempts rand (config.skillWeight.getD (7 / 10))
            applications)).assignments ∧
    (assignSeats sqrtFn rand seats applications config).unassigned
      = (runAllocation
          (scoredSeatsFor sqrtFn (seats.filter (fun s => !s.isDisabled))
            config.stagePosition)
          (lotteryAttempts rand (config.skillWeight.getD (7 / 10))
            applications)).unassigned := by
  rw [assignSeats, if_neg h]
  exact ⟨rfl, rfl⟩

/-- Pairwise seat-id disjointness depends only on the (id, seatIds, tier)
projection, so it transfers across `assignSeatQuality`. -/
theorem pairwise_disjoint_of_proj {l l2 : List Assignment}
    (hproj : l2.map (fun a => (a.applicationId, a.seatIds, a.tier))
      = l.map (fun a => (a.applicationId, a.seatIds, a.tier)))
    (hl : l.Pairwise (fun a b => ∀ sid ∈ a.seatIds, sid ∉ b.seatIds)) :
    l2.Pairwise (fun a b => ∀ sid ∈ a.seatIds, sid ∉ b.seatIds) := by
  have h1 : (l.map (fun a => (a.applicationId, a.seatIds, a.tier))).Pairwise
      (fun x y : String × List String × ℕ => ∀ sid ∈ x.2.1, sid ∉ y.2.1) := by
    apply List.pairwise_map.mpr
    exact hl
  rw [← hproj] at h1
  exact List.pairwise_map.mp h1

/-- C1: no seat id is ever granted to two different assignments of the same
`assignSeats` run. -/
theorem claim_C1_no_seat_double_booking (sqrtFn : ℚ → ℚ) (rand : ℕ → ℚ)
    (seats : List Seat) (applications : List Application) (config : LotteryConfig)
    (hrand : ∀ i, 0 ≤ rand i ∧ rand i < 1) :
    (assignSeats sqrtFn rand seats applications config).assignments.Pairwise
      (fun a b => ∀ sid ∈ a.seatIds, sid ∉ b.seatIds) := by
  by_cases hdeg : ((seats.filter (fun s => !s.isDisabled)).length = 0 ∨
      applications.length = 0)
  · have hres : assignSeats sqrtFn rand seats applications config
        = degenerateResult seats applications := by
      rw [assignSeats, if_pos hdeg]
    rw [hres]
    simp [degenerateResult]
  · rcases assignSeats_main sqrtFn rand seats applications config hdeg with ⟨hA, _⟩
    rw [hA]
    have hinv : AllocInv (runAllocation
        (scoredSeatsFor sqrtFn (seats.filter (fun s => !s.isDisabled))
          config.stagePosition)
        (lotteryAttempts rand (config.skillWeight.getD (7 / 10)) applications)) := by
      rw [runAllocation_eq_allocFold]
      exact allocFold_inv _ _ initAllocState initAllocState_inv
    exact pairwise_disjoint_of_proj (assignSeatQuality_proj _) hinv.2

/-- C1 witness: the invariant at the concrete scenario-B inputs. -/
theorem claim_C1_no_seat_double_booking_witness :
    (assignSeats ratSqrt demoRand [demoSeat] [demoInv, demoRescue]
      demoCfg).assignments.Pairwise
      (fun a b => ∀ sid ∈ a.seatIds, sid ∉ b.seatIds) :=
  claim_C1_no_seat_double_booking ratSqrt demoRand [demoSeat] [demoInv, demoRescue]
    demoCfg (fun i => by norm_num [demoRand])

/-- C2: every applicant is either granted an assignment holding exactly
`groupSize` seat ids or listed in `unassigned`, and every produced assignment
corresponds to some input applicant with exactly its requested party size. -/
theorem claim_C2_full_party_or_unassigned (sqrtFn : ℚ → ℚ) (rand : ℕ → ℚ)
    (seats : List Seat) (applications : List Application) (config : LotteryConfig)
    (hrand : ∀ i, 0 ≤ rand i ∧ rand i < 1) :
    (∀ app ∈ applications,
      (∃ a ∈ (assignSeats sqrtFn rand seats applications config).assignments,
        a.applicationId = app.id ∧ a.seatIds.length = app.groupSize) ∨
      app.id ∈ (assignSeats sqrtFn rand seats applications config).unassigned) ∧
    (∀ a ∈ (assignSeats sqrtFn rand seats applications config).assignments,
      ∃ app ∈ applications,
        a.applicationId = app.id ∧ a.seatIds.length = app.groupSize) := by
  by_cases hdeg : ((seats.filter (fun s => !s.isDisabled)).length = 0 ∨
      applications.length = 0)
  · have hres : assignSeats sqrtFn rand seats applications config
        = degenerateResult seats applications := by
      rw [assignSeats, if_pos hdeg]
    rw [hres]
    constructor
    · intro app happ
      right
      exact List.mem_map_of_mem _ happ
    · intro a ha
      simp [degenerateResult] at ha
  · rcases assignSeats_main sqrtFn rand seats applications config hdeg with ⟨hA, hU⟩
    rw [hA, hU, runAllocation_eq_allocFold]
    have hperm := lotteryAttempts_map_fst_perm rand (config.skillWeight.getD (7 / 10))
      applications
    constructor
    · intro app happ
      have happ2 : app ∈ (lotteryAttempts rand (config.skillWeight.getD (7 / 10))
          applications).map Prod.fst := hperm.mem_iff.mpr happ
      rcases List.mem_map.mp happ2 with ⟨p, hp, hfst⟩
      rcases allocFold_outcome (scoredSeatsFor sqrtFn
          (seats.filter (fun s => !s.isDisabled)) config.stagePosition) _
          initAllocState p hp with ⟨a, ha, haid, halen⟩ | hout
      · left
        rcases mem_map_of_map_eq (assignSeatQuality_proj _).symm a ha with ⟨b, hb, hpb⟩
        refine ⟨b, hb, ?_, ?_⟩
        · have : b.applicationId = a.applicationId := congrArg Prod.fst hpb
          rw [this, haid, hfst]
        · have : b.seatIds = a.seatIds := congrArg (fun x => x.2.1) hpb
          rw [this, halen, hfst]
      · right
        rw [← hfst]
        exact hout
    · intro a ha
      rcases mem_map_of_map_eq (assignSeatQuality_proj _) a ha with ⟨b, hb, hpb⟩
      rcases allocFold_provenance (scoredSeatsFor sqrtFn
          (seats.filter (fun s => !s.isDisabled)) config.stagePosition) _
          initAllocState b hb with hinit | ⟨p, hp, hid, hlen, _⟩
      · simp [initAllocState] at hinit
      · have hmem : p.1 ∈ applications := by
          apply hperm.mem_iff.mp
          exact List.mem_map_of_mem Prod.fst hp
        refine ⟨p.1, hmem, ?_, ?_⟩
        · have : a.applicationId = b.applicationId := (congrArg Prod.fst hpb).symm
          rw [this, hid]
        · have : a.seatIds = b.seatIds := (congrArg (fun x => x.2.1) hpb).symm
          rw [this, hlen]

/-- C2 witness: the invitation applicant of scenario B is either fully seated
or unassigned. -/
theorem claim_C2_full_party_or_unassigned_witness :
    (∃ a ∈ (assignSeats ratSqrt demoRand [demoSeat] [demoInv, demoRescue]
        demoCfg).assignments,
      a.applicationId = demoInv.id ∧ a.seatIds.length = demoInv.groupSize) ∨
    demoInv.id ∈ (assignSeats ratSqrt demoRand [demoSeat] [demoInv, demoRescue]
        demoCfg).unassigned :=
  (claim_C2_full_party_or_unassigned ratSqrt demoRand [demoSeat]
    [demoInv, demoRescue] demoCfg (fun i => by norm_num [demoRand])).1 demoInv
    (List.mem_cons_self _ _)

set_option maxRecDepth 8000 in
set_option maxHeartbeats 2000000 in
/-- C3: the attempt order folded by `assignSeats` (`runAllocation` processes
`lotteryAttempts` left to right) is tier-monotone — no Tier-2 attempt precedes
any Tier-1 attempt and no Tier-3 attempt precedes any Tier-2 attempt — with
every attempt tagged by its classified tier and every applicant attempted
exactly once; concretely (scenario B), with one invitation applicant, one
rescue applicant and a single seat, the invitation applicant is seated, the
rescue applicant is unassigned and `tier2OverflowCount = 1`. -/
theorem claim_C3_tier_ordering_and_scenario :
    (∀ (rand : ℕ → ℚ) (skillWeight : ℚ) (applications : List Application),
      (∀ i, 0 ≤ rand i ∧ rand i < 1) →
      (lotteryAttempts rand skillWeight applications).Pairwise
        (fun p q => p.2 ≤ q.2) ∧
      (∀ p ∈ lotteryAttempts rand skillWeight applications,
        (p.2 = 1 ∧ isTier1 p.1 = true) ∨ (p.2 = 2 ∧ isTier2 p.1 = true) ∨
          (p.2 = 3 ∧ isTier3 p.1 = true)) ∧
      (lotteryAttempts rand skillWeight applications).map Prod.fst ~ applications) ∧
    ((assignSeats ratSqrt demoRand [demoSeat] [demoInv, demoRescue]
        demoCfg).assignments.map (fun a => (a.applicationId, a.seatIds))
        = [("a1", ["s1"])] ∧
      (assignSeats ratSqrt demoRand [demoSeat] [demoInv, demoRescue]
        demoCfg).unassigned = ["a2"] ∧
      (assignSeats ratSqrt demoRand [demoSeat] [demoInv, demoRescue]
        demoCfg).stats.tier2OverflowCount = 1) := by
  constructor
  · intro rand skillWeight applications hrand
    exact ⟨lotteryAttempts_tiers_mono rand skillWeight applications,
      lotteryAttempts_tags rand skillWeight applications,
      lotteryAttempts_map_fst_perm rand skillWeight applications⟩
  · norm_num [assignSeats, demoSeat, demoInv, demoRescue, demoCfg, demoRand,
      degenerateResult, listMax, calculateDistance, calculateSeatScore, ratSqrt_zero,
      maxDistanceFor, scoredSeatsFor, lotteryAttempts,
      tier1Apps, tier2Apps, tier3Apps, isTier1, isTier2, isTier3,
      fisherYates, fyAux, hybridSelection, hybridLoop, shuffleStep,
      List.insertionSort, List.orderedInsert,
      runAllocation, initAllocState, allocateApp, findAndAllocateSeats, candidatesFor,
      buildAllChunks, groupByKey, insertGrouped, groupKey, splitChunks, colOf, mkChunk,
      chunkAvg, getSubChunks, applySoloBonus, assignSeatQuality, qualityLabel,
      List.flatMap, List.range, List.range.loop]

/-- C3 witness: tier monotonicity and full coverage of the attempt order at
the scenario-B applicant list. -/
theorem claim_C3_tier_ordering_witness :
    (lotteryAttempts demoRand (7 / 10) [demoInv, demoRescue]).Pairwise
      (fun p q => p.2 ≤ q.2) ∧
    (lotteryAttempts demoRand (7 / 10) [demoInv, demoRescue]).map Prod.fst
      ~ [demoInv, demoRescue] :=
  ⟨(claim_C3_tier_ordering_and_scenario.1 demoRand (7 / 10) [demoInv, demoRescue]
      (fun i => by norm_num [demoRand])).1,
    (claim_C3_tier_ordering_and_scenario.1 demoRand (7 / 10) [demoInv, demoRescue]
      (fun i => by norm_num [demoRand])).2.2⟩

end VenueLottery
